import Mathlib

/-!
Verification of the video-metadata-generator application.

This file embeds the core logic of the repository in Lean 4:

* `parseSeoResponse` (src/App.tsx, lines 129-176): the heuristic
  section-header parser turning unstructured model output into
  {title, russianTitle, keywords} fields.  The JavaScript regexes used by
  `getSectionContent` are embedded operationally.  For the concrete patterns
  involved, the greedy sub-matches (`\**`, `\s*`) are forced (no header
  begins with an asterisk or a whitespace character and the characters
  following each starred or spaced run cannot begin an alternative parse),
  at most one header alternative can match at a given position (the
  case-folded first characters of the six headers are pairwise distinct),
  and the lazy `([\s\S]*?)` followed by the lookahead `(?=...|$)` captures
  exactly the characters up to the first position where the lookahead
  pattern fires, or to the end of the string.  Hence the regex semantics
  reduce to the deterministic scanning functions defined below.
* the video-collection controller of `App` (handleRemoveVideo, the
  restore effect, the structured branch of onModeSelect, setTimecodes
  unescaping).
* the upload/poll client `uploadFile` (src/unnamed/part_000).
-/

/-- The set of characters matched by JavaScript `\\s` (also used by
`String.prototype.trim`): tab, line feed, vertical tab, form feed,
carriage return, space, no-break space, ogham space mark, the en-quad to
hair-space range, line separator, paragraph separator, narrow no-break
space, medium mathematical space, ideographic space and the byte-order
mark. -/
def isJsSpace (c : Char) : Bool :=
  let n := c.toNat
  n = 32 || n = 9 || n = 10 || n = 11 || n = 12 || n = 13 ||
  n = 0xa0 || n = 0x1680 || (0x2000 <= n && n <= 0x200a) ||
  n = 0x2028 || n = 0x2029 || n = 0x202f || n = 0x205f || n = 0x3000 ||
  n = 0xfeff

/-- Case folding used by the `i` regex flag and by `String.toLowerCase`
for the alphabets appearing in the six recognized headers: ASCII capital
letters (0x41-0x5a) and Russian Cyrillic capital letters (0x410-0x42f,
plus 0x401). -/
def caseFold (c : Char) : Char :=
  let n := c.toNat
  if 0x41 <= n && n <= 0x5a then Char.ofNat (n + 32)
  else if 0x410 <= n && n <= 0x42f then Char.ofNat (n + 32)
  else if n = 0x401 then Char.ofNat 0x451
  else c

def foldList (s : List Char) : List Char := s.map caseFold

/-- `\**`: drop a (maximal) run of asterisks. -/
def skipAst (s : List Char) : List Char := s.dropWhile (fun c => c = '*')

/-- `\s*`: drop a (maximal) run of whitespace. -/
def skipWs (s : List Char) : List Char := s.dropWhile isJsSpace

/-- Match the literal header `h` case-insensitively at the start of `s`;
return the rest of `s` on success. -/
def matchOneHeader (h : List Char) (s : List Char) : Option (List Char) :=
  if foldList (s.take h.length) = foldList h then some (s.drop h.length)
  else none

/-- Match the alternation `(?:h₁|h₂|...)` at the start of `s` (first
alternative that fits wins, as in backtracking regex engines). -/
def matchAnyHeader : List (List Char) → List Char → Option (List Char)
  | [], _ => none
  | h :: hs, s =>
    match matchOneHeader h s with
    | some r => some r
    | none => matchAnyHeader hs s

/-- Match `\**\s*(?:headers)\**\s*:` at the start of `s`; return the text
after the colon on success. -/
def afterHeaderColon (hs : List (List Char)) (s : List Char) :
    Option (List Char) :=
  match matchAnyHeader hs (skipWs (skipAst s)) with
  | some r =>
    match skipWs (skipAst r) with
    | d :: rest => if d = ':' then some rest else none
    | [] => none
  | none => none

/-- The lookahead `(?=\n\s*\**\s*(?:lookaheadHeaders)\**\s*:)` tested at the
start of `s`. -/
def lookaheadHere (lhs : List (List Char)) (s : List Char) : Bool :=
  match s with
  | d :: rest =>
    if d = '\n' then
      match matchAnyHeader lhs (skipWs (skipAst (skipWs rest))) with
      | some r =>
        match skipWs (skipAst r) with
        | e :: _ => e = ':'
        | [] => false
      | none => false
    else false
  | [] => false

/-- The lazy capture `([\s\S]*?)(?=lookahead|$)`: take characters until the
first position where the lookahead fires (or the end of the text). -/
def captureContent (lhs : List (List Char)) : List Char → List Char
  | [] => []
  | c :: rest =>
    if lookaheadHere lhs (c :: rest) then []
    else c :: captureContent lhs rest

/-- `text.match(regex)` for the section regex: scan for the leftmost
position where the header part matches and return the captured group. -/
def findSection (hs lhs : List (List Char)) : List Char → Option (List Char)
  | [] => none
  | c :: rest =>
    match afterHeaderColon hs (c :: rest) with
    | some after => some (captureContent lhs (skipWs after))
    | none => findSection hs lhs rest

/-- `clean`: `(str || '').replace(/\*/g, '').trim()`. -/
def removeAst (s : List Char) : List Char := s.filter (fun c => ¬ (c = '*'))

def trimList (s : List Char) : List Char :=
  ((s.dropWhile isJsSpace).reverse.dropWhile isJsSpace).reverse

def cleanStr (s : List Char) : List Char := trimList (removeAst s)

def hdrZagolovok : List Char := "Заголовок".data
def hdrTitle : List Char := "Title".data
def hdrRusTitle : List Char := "Russian Title".data
def hdrRusZagolovok : List Char := "Русский заголовок".data
def hdrKlyuch : List Char := "Ключевые слова".data
def hdrKeywords : List Char := "Keywords".data

def allHeaders : List (List Char) :=
  [hdrZagolovok, hdrTitle, hdrRusTitle, hdrRusZagolovok, hdrKlyuch,
   hdrKeywords]

/-- `allHeaders.filter(h => !currentHeaders.some(ch => h.toLowerCase() ===
ch.toLowerCase()))`. -/
def lookaheadOf (cur : List (List Char)) : List (List Char) :=
  allHeaders.filter (fun h => ¬ cur.any (fun ch => foldList h = foldList ch))

/-- `getSectionContent` from `parseSeoResponse`: the extracted, cleaned
content of the section introduced by one of `cur`, or `''`. -/
def getSectionContent (cur : List (List Char)) (text : List Char) :
    List Char :=
  match findSection cur (lookaheadOf cur) text with
  | some cap => cleanStr cap
  | none => []

/-- `new RegExp(`\\**\\s*${h}\\**\\s*:`, 'i').test(...)` at the start of a
suffix. -/
def singleHeaderColon (h : List Char) (s : List Char) : Bool :=
  match matchOneHeader h (skipWs (skipAst s)) with
  | some r =>
    match skipWs (skipAst r) with
    | d :: _ => d = ':'
    | [] => false
  | none => false

def headerColonSomewhere (h : List Char) : List Char → Bool
  | [] => false
  | c :: rest => singleHeaderColon h (c :: rest) || headerColonSomewhere h rest

/-- `allHeaders.some(h => new RegExp(...).test(text))`: the fallback guard. -/
def anyHeaderColonInText (text : List Char) : Bool :=
  allHeaders.any (fun h => headerColonSomewhere h text)

structure SeoFields where
  title : List Char
  russianTitle : List Char
  keywords : List Char
deriving DecidableEq, Repr

def titleCur : List (List Char) := [hdrZagolovok, hdrTitle]
def russianCur : List (List Char) := [hdrRusTitle, hdrRusZagolovok]
def keywordsCur : List (List Char) := [hdrKlyuch, hdrKeywords]

/-- `parseSeoResponse` (src/App.tsx lines 129-176). -/
def parseSeoResponse (text : List Char) : SeoFields :=
  if text = [] then ⟨[], [], []⟩
  else
    let title := getSectionContent titleCur text
    let russianTitle := getSectionContent russianCur text
    let keywords0 := getSectionContent keywordsCur text
    let keywords :=
      if title = [] ∧ keywords0 = [] ∧ russianTitle = [] ∧
          anyHeaderColonInText text = false then cleanStr text
      else keywords0
    ⟨title, russianTitle, keywords⟩

structure Timecode where
  time : List Char
  text : List Char
deriving DecidableEq, Repr

/-- The apostrophe character. -/
def apos : Char := Char.ofNat 39

/-- The backslash character. -/
def bslash : Char := Char.ofNat 92

/-- `text.replaceAll("\\'", "'")`: left-to-right, non-overlapping
replacement of each backslash-apostrophe pair by an apostrophe. -/
def unescapeQuotes : List Char → List Char
  | [] => []
  | [c] => [c]
  | c :: d :: rest =>
    if c = bslash ∧ d = apos then apos :: unescapeQuotes rest
    else c :: unescapeQuotes (d :: rest)

structure VideoFileEntry where
  id : Nat
  name : List Char
  url : Nat
  geminiFile : Option Nat
  uploadError : Option (List Char)
  seoData : Option SeoFields
  textResponse : Option (List Char)
  timecodeList : Option (List Timecode)
deriving DecidableEq, Repr

def emptySeo : SeoFields := ⟨[], [], []⟩

structure DisplayState where
  timecodeList : Option (List Timecode)
  textResponse : Option (List Char)
  seoData : SeoFields
  activeMode : Option (List Char)
deriving DecidableEq, Repr

structure AppState where
  videoFiles : List VideoFileEntry
  activeVideoId : Option Nat
  display : DisplayState
deriving DecidableEq, Repr

def MODE_SEO : List Char := "SEO Описание".data

def MODE_SUBTITLES : List Char := "Аудио/Видео субтитры".data

/-- JavaScript `x || null` on an optional string (the empty string is
falsy). -/
def orNull (x : Option (List Char)) : Option (List Char) :=
  match x with
  | some t => if t = [] then none else some t
  | none => none

/-- The condition of the first branch of the restore effect:
`activeVideo.seoData && (activeVideo.seoData.title ||
activeVideo.seoData.keywords)`. -/
def hasSeoDisplay (v : VideoFileEntry) : Bool :=
  match v.seoData with
  | some sd => ¬ (sd.title = []) || ¬ (sd.keywords = [])
  | none => false

/-- Branches 2 and 3 of the restore effect (App.tsx lines 107-118). -/
def restoreRest (v : VideoFileEntry) (d : DisplayState) : DisplayState :=
  match v.timecodeList with
  | some l =>
    { d with timecodeList := some l, textResponse := none,
             activeMode := some MODE_SUBTITLES, seoData := emptySeo }
  | none =>
    { timecodeList := none, textResponse := none, seoData := emptySeo,
      activeMode := none }

/-- The restore `useEffect` (App.tsx lines 92-120) applied to the newly
active video `v` and the current display state `d`. -/
def restoreDisplay (v : VideoFileEntry) (d : DisplayState) : DisplayState :=
  match v.seoData with
  | some sd =>
    if ¬ (sd.title = []) || ¬ (sd.keywords = []) then
      { d with seoData := sd, textResponse := orNull v.textResponse,
               activeMode := some MODE_SEO }
    else restoreRest v d
  | none => restoreRest v d

/-- `setActiveVideoId(id)` followed by one pass of the restore effect. -/
def setActiveVideo (st : AppState) (id : Nat) : AppState :=
  let st1 : AppState := { st with activeVideoId := some id }
  match st1.videoFiles.find? (fun v => v.id = id) with
  | some v => { st1 with display := restoreDisplay v st1.display }
  | none =>
    match st1.videoFiles with
    | [] => st1
    | first :: _ => { st1 with activeVideoId := some first.id }

/-- `handleRemoveVideo` (App.tsx lines 419-438).  The second component is
the list of revoked local object URLs. -/
def handleRemoveVideo (st : AppState) (idToRemove : Nat) :
    AppState × List Nat :=
  match st.videoFiles.find? (fun v => v.id = idToRemove) with
  | none => (st, [])
  | some videoToRemove =>
    let remaining := st.videoFiles.filter (fun v => ¬ (v.id = idToRemove))
    let newActive : Option Nat :=
      if st.activeVideoId = some idToRemove then
        if remaining.length = 0 then none
        else
          let originalIndex := st.videoFiles.findIdx (fun v => v.id = idToRemove)
          let newIndex := min originalIndex (remaining.length - 1)
          match remaining[newIndex]? with
          | some v => some v.id
          | none => none
      else st.activeVideoId
    ({ st with videoFiles := remaining, activeVideoId := newActive },
     [videoToRemove.url])

structure FunctionCall where
  name : List Char
  timecodes : List Timecode
deriving DecidableEq, Repr

structure GenResponse where
  text : Option (List Char)
  functionCalls : List FunctionCall
deriving DecidableEq, Repr

/-- The outcome of one per-video generation task: the task's own
`try`/`catch` converts a thrown error into an `err` value, so the
all-complete barrier (`Promise.all`) never rejects. -/
inductive GenOutcome where
  | ok (resp : GenResponse)
  | err (msg : List Char)
deriving DecidableEq, Repr

def setTimecodesName : List Char := "set_timecodes".data

def unescapeTimecodes (l : List Timecode) : List Timecode :=
  l.map (fun t => { t with text := unescapeQuotes t.text })

def errMsgOf (e : List Char) : List Char := "Ошибка: ".data ++ e

def badModelMsg : List Char := "Ошибка: Некорректный ответ модели.".data

structure RunResult where
  id : Nat
  outcome : GenOutcome
deriving DecidableEq, Repr

/-- The structured-output (non-text-mode) branch of `onModeSelect`
(App.tsx lines 198-292).  `gen` gives each target's generation outcome. -/
def onModeSelectStructured (st : AppState) (modeName : List Char)
    (applyToAll : Bool) (gen : Nat → GenOutcome) : AppState :=
  let cleared : DisplayState :=
    { timecodeList := none, textResponse := none, seoData := emptySeo,
      activeMode := some modeName }
  let targets :=
    if applyToAll then st.videoFiles.filter (fun v => ¬ (v.geminiFile = none))
    else st.videoFiles.filter
      (fun v => st.activeVideoId = some v.id ∧ ¬ (v.geminiFile = none))
  if targets.length = 0 then { st with display := cleared }
  else
    let results : List RunResult := targets.map (fun v => ⟨v.id, gen v.id⟩)
    let newVideos := st.videoFiles.map (fun v =>
      match results.find? (fun r => r.id = v.id) with
      | some r =>
        match r.outcome with
        | .ok resp =>
          match resp.functionCalls.head? with
          | some call =>
            if call.name = setTimecodesName then
              { v with timecodeList := some (unescapeTimecodes call.timecodes) }
            else v
          | none => v
        | .err _ => v
      | none => v)
    let display :=
      match results.find? (fun r => some r.id = st.activeVideoId) with
      | some r =>
        match r.outcome with
        | .ok resp =>
          match resp.functionCalls.head? with
          | some call =>
            if call.name = setTimecodesName then
              { cleared with
                timecodeList := some (unescapeTimecodes call.timecodes) }
            else { cleared with textResponse := some badModelMsg }
          | none => { cleared with textResponse := some badModelMsg }
        | .err e => { cleared with textResponse := some (errMsgOf e) }
      | none => cleared
    { st with videoFiles := newVideos, display := display }

inductive FileState where
  | PROCESSING
  | READY
  | FAILED
deriving DecidableEq, Repr

structure RemoteFile where
  name : Nat
  state : FileState
deriving DecidableEq, Repr

/-- The first poll result whose state is not PROCESSING, mirroring the
`while (getFile.state === 'PROCESSING')` loop. -/
def firstSettled : List RemoteFile → Option RemoteFile
  | [] => none
  | f :: rest => if f.state = .PROCESSING then firstSettled rest else some f

inductive UploadError where
  | processingFailed
deriving DecidableEq, Repr

/-- `uploadFile` (src/unnamed/part_000 lines 50-82).  `polls` is the
sequence of results of the successive `client.files.get` calls; `none`
models the loop never terminating (every poll still PROCESSING). -/
def uploadFile (polls : List RemoteFile) :
    Option (Except UploadError RemoteFile) :=
  match firstSettled polls with
  | none => none
  | some f =>
    if f.state = .FAILED then some (.error .processingFailed)
    else some (.ok f)

/-- Claim C3: parsing the two-line text `Заголовок: Cats` / `Keywords:
cat, pet, cute` yields title `Cats`, an empty localized title and
keywords `cat, pet, cute`. -/
theorem parseSeo_concrete_scenario :
    parseSeoResponse "Заголовок: Cats\nKeywords: cat, pet, cute".data =
      ⟨"Cats".data, [], "cat, pet, cute".data⟩ := by decide

/-- Claim C5: once a poll sequence settles (first non-PROCESSING status),
`uploadFile` returns the settled remote file when its state is READY, and
fails with an `UploadError` exactly when the settled state is FAILED. -/
theorem uploadFile_poll_terminal (polls : List RemoteFile) (f : RemoteFile)
    (h : firstSettled polls = some f) :
    (uploadFile polls = some (.error .processingFailed) ↔
      f.state = .FAILED) ∧
    (f.state = .READY → uploadFile polls = some (.ok f)) := by
  constructor
  · constructor
    · intro hu
      unfold uploadFile at hu
      rw [h] at hu
      by_cases hf : f.state = .FAILED
      · exact hf
      · simp [hf] at hu
    · intro hf
      unfold uploadFile
      rw [h]
      simp [hf]
  · intro hr
    unfold uploadFile
    rw [h]
    simp [hr]

theorem uploadFile_poll_terminal_witness :
    firstSettled [⟨7, .PROCESSING⟩, ⟨7, .READY⟩] =
        some (⟨7, .READY⟩ : RemoteFile) ∧
    ((uploadFile [⟨7, .PROCESSING⟩, ⟨7, .READY⟩] =
        some (.error .processingFailed) ↔
          (⟨7, .READY⟩ : RemoteFile).state = .FAILED) ∧
      ((⟨7, .READY⟩ : RemoteFile).state = .READY →
        uploadFile [⟨7, .PROCESSING⟩, ⟨7, .READY⟩] =
          some (.ok ⟨7, .READY⟩))) :=
  ⟨by decide, uploadFile_poll_terminal _ _ (by decide)⟩

/-- Claim C9: removing an id that belongs to no video leaves the whole
application state unchanged and releases no local handle. -/
theorem handleRemoveVideo_absent_noop (st : AppState) (id : Nat)
    (h : ∀ v ∈ st.videoFiles, ¬ (v.id = id)) :
    handleRemoveVideo st id = (st, []) := by
  unfold handleRemoveVideo
  have hf : st.videoFiles.find? (fun v => v.id = id) = none := by
    rw [List.find?_eq_none]
    intro v hv
    simpa using h v hv
  rw [hf]

theorem handleRemoveVideo_absent_noop_witness :
    (∀ v ∈ ([⟨1, [], 11, some 101, none, none, none, none⟩] :
        List VideoFileEntry), ¬ (v.id = 2)) ∧
    handleRemoveVideo
        ⟨[⟨1, [], 11, some 101, none, none, none, none⟩], some 1,
          ⟨none, none, emptySeo, none⟩⟩ 2 =
      (⟨[⟨1, [], 11, some 101, none, none, none, none⟩], some 1,
          ⟨none, none, emptySeo, none⟩⟩, []) :=
  ⟨by decide, handleRemoveVideo_absent_noop _ 2 (by decide)⟩

/-- Claim C6: removing the currently active video promotes the remaining
video at index `min(originalIndex, remainingCount-1)`, and leaves no
active video when none remains. -/
theorem handleRemoveVideo_promotes (st : AppState) (id : Nat)
    (hact : st.activeVideoId = some id)
    (hmem : ∃ v ∈ st.videoFiles, v.id = id) :
    ((st.videoFiles.filter (fun v => ¬ (v.id = id))) = [] →
      (handleRemoveVideo st id).1.activeVideoId = none) ∧
    ((st.videoFiles.filter (fun v => ¬ (v.id = id))) ≠ [] →
      ∃ w, (st.videoFiles.filter (fun v => ¬ (v.id = id)))[min
          (st.videoFiles.findIdx (fun v => v.id = id))
          ((st.videoFiles.filter (fun v => ¬ (v.id = id))).length - 1)]? =
        some w ∧
      (handleRemoveVideo st id).1.activeVideoId = some w.id) := by
  obtain ⟨v, hv, hvid⟩ := hmem
  have hfs : (st.videoFiles.find? (fun v => v.id = id)).isSome := by
    rw [List.find?_isSome]
    exact ⟨v, hv, by simpa using hvid⟩
  obtain ⟨u, hu⟩ := Option.isSome_iff_exists.mp hfs
  constructor
  · intro hrem
    have hlen0 : (st.videoFiles.filter (fun v => ¬ (v.id = id))).length = 0 := by
      rw [hrem]
      rfl
    unfold handleRemoveVideo
    rw [hu, hact]
    dsimp only []
    rw [if_pos rfl, if_pos hlen0]
  · intro hrem
    have hlen : 0 < (st.videoFiles.filter (fun v => ¬ (v.id = id))).length :=
      List.length_pos.mpr hrem
    have hidx : min (st.videoFiles.findIdx (fun v => v.id = id))
        ((st.videoFiles.filter (fun v => ¬ (v.id = id))).length - 1) <
        (st.videoFiles.filter (fun v => ¬ (v.id = id))).length := by
      omega
    refine ⟨(st.videoFiles.filter (fun v => ¬ (v.id = id))).get ⟨min
        (st.videoFiles.findIdx (fun v => v.id = id))
        ((st.videoFiles.filter (fun v => ¬ (v.id = id))).length - 1), hidx⟩,
      List.getElem?_eq_getElem hidx, ?_⟩
    have hlz : ¬ ((st.videoFiles.filter (fun v => ¬ (v.id = id))).length = 0) := by
      omega
    unfold handleRemoveVideo
    rw [hu, hact]
    dsimp only []
    rw [if_pos rfl, if_neg hlz, List.getElem?_eq_getElem hidx]
    rfl

theorem handleRemoveVideo_promotes_witness :
    ((⟨[⟨1, [], 11, some 101, none, none, none, none⟩,
        ⟨2, [], 12, some 102, none, none, none, none⟩,
        ⟨3, [], 13, some 103, none, none, none, none⟩], some 2,
        ⟨none, none, emptySeo, none⟩⟩ : AppState).activeVideoId = some 2 ∧
      (∃ v ∈ (⟨[⟨1, [], 11, some 101, none, none, none, none⟩,
        ⟨2, [], 12, some 102, none, none, none, none⟩,
        ⟨3, [], 13, some 103, none, none, none, none⟩], some 2,
        ⟨none, none, emptySeo, none⟩⟩ : AppState).videoFiles, v.id = 2)) ∧
    (((⟨[⟨1, [], 11, some 101, none, none, none, none⟩,
        ⟨2, [], 12, some 102, none, none, none, none⟩,
        ⟨3, [], 13, some 103, none, none, none, none⟩], some 2,
        ⟨none, none, emptySeo, none⟩⟩ : AppState).videoFiles.filter
          (fun v => ¬ (v.id = 2)) = [] →
      (handleRemoveVideo ⟨[⟨1, [], 11, some 101, none, none, none, none⟩,
        ⟨2, [], 12, some 102, none, none, none, none⟩,
        ⟨3, [], 13, some 103, none, none, none, none⟩], some 2,
        ⟨none, none, emptySeo, none⟩⟩ 2).1.activeVideoId = none) ∧
    ((⟨[⟨1, [], 11, some 101, none, none, none, none⟩,
        ⟨2, [], 12, some 102, none, none, none, none⟩,
        ⟨3, [], 13, some 103, none, none, none, none⟩], some 2,
        ⟨none, none, emptySeo, none⟩⟩ : AppState).videoFiles.filter
          (fun v => ¬ (v.id = 2)) ≠ [] →
      ∃ w, ((⟨[⟨1, [], 11, some 101, none, none, none, none⟩,
        ⟨2, [], 12, some 102, none, none, none, none⟩,
        ⟨3, [], 13, some 103, none, none, none, none⟩], some 2,
        ⟨none, none, emptySeo, none⟩⟩ : AppState).videoFiles.filter
          (fun v => ¬ (v.id = 2)))[min
          ((⟨[⟨1, [], 11, some 101, none, none, none, none⟩,
        ⟨2, [], 12, some 102, none, none, none, none⟩,
        ⟨3, [], 13, some 103, none, none, none, none⟩], some 2,
        ⟨none, none, emptySeo, none⟩⟩ : AppState).videoFiles.findIdx
            (fun v => v.id = 2))
          (((⟨[⟨1, [], 11, some 101, none, none, none, none⟩,
        ⟨2, [], 12, some 102, none, none, none, none⟩,
        ⟨3, [], 13, some 103, none, none, none, none⟩], some 2,
        ⟨none, none, emptySeo, none⟩⟩ : AppState).videoFiles.filter
            (fun v => ¬ (v.id = 2))).length - 1)]? = some w ∧
      (handleRemoveVideo ⟨[⟨1, [], 11, some 101, none, none, none, none⟩,
        ⟨2, [], 12, some 102, none, none, none, none⟩,
        ⟨3, [], 13, some 103, none, none, none, none⟩], some 2,
        ⟨none, none, emptySeo, none⟩⟩ 2).1.activeVideoId = some w.id)) :=
  ⟨⟨by decide, by decide⟩,
    handleRemoveVideo_promotes _ 2 (by decide) (by decide)⟩

/-- Claim C8: activating a video that is present in the collection
restores its cached free-text result and structured fields when it has
them, otherwise its cached timecode list, and clears the display state
when it has neither. -/
theorem setActiveVideo_restores (st : AppState) (id : Nat)
    (v : VideoFileEntry)
    (hfind : st.videoFiles.find? (fun w => w.id = id) = some v) :
    (∀ sd, v.seoData = some sd →
      (¬ (sd.title = []) ∨ ¬ (sd.keywords = [])) →
      (setActiveVideo st id).display =
        { st.display with
          seoData := sd,
          textResponse := orNull v.textResponse,
          activeMode := some MODE_SEO }) ∧
    (hasSeoDisplay v = false → ∀ l, v.timecodeList = some l →
      (setActiveVideo st id).display =
        { timecodeList := some l, textResponse := none, seoData := emptySeo,
          activeMode := some MODE_SUBTITLES }) ∧
    (hasSeoDisplay v = false → v.timecodeList = none →
      (setActiveVideo st id).display =
        { timecodeList := none, textResponse := none, seoData := emptySeo,
          activeMode := none }) := by
  have hset : setActiveVideo st id =
      { st with
        activeVideoId := some id,
        display := restoreDisplay v st.display } := by
    unfold setActiveVideo
    dsimp only []
    rw [hfind]
  refine ⟨?_, ?_, ?_⟩
  · intro sd hsd hcond
    have hb : (¬ (sd.title = []) || ¬ (sd.keywords = [])) = true := by
      rcases hcond with h | h <;> simp [h]
    rw [hset]
    dsimp only []
    unfold restoreDisplay
    rw [hsd]
    dsimp only []
    rw [if_pos hb]
  · intro hseo l htl
    rw [hset]
    dsimp only []
    unfold restoreDisplay
    cases hv : v.seoData with
    | some sd =>
      dsimp only []
      rw [if_neg ?_]
      · unfold restoreRest
        rw [htl]
      · unfold hasSeoDisplay at hseo
        rw [hv] at hseo
        simpa using hseo
    | none =>
      dsimp only []
      unfold restoreRest
      rw [htl]
  · intro hseo htl
    rw [hset]
    dsimp only []
    unfold restoreDisplay
    cases hv : v.seoData with
    | some sd =>
      dsimp only []
      rw [if_neg ?_]
      · unfold restoreRest
        rw [htl]
      · unfold hasSeoDisplay at hseo
        rw [hv] at hseo
        simpa using hseo
    | none =>
      dsimp only []
      unfold restoreRest
      rw [htl]

theorem setActiveVideo_restores_witness :
    (([⟨5, [], 15, some 105, none, none, none, none⟩] :
        List VideoFileEntry).find? (fun w => w.id = 5) =
      some ⟨5, [], 15, some 105, none, none, none, none⟩) ∧
    (setActiveVideo ⟨[⟨5, [], 15, some 105, none, none, none, none⟩],
        none, ⟨none, some [apos], emptySeo, some MODE_SEO⟩⟩ 5).display =
      { timecodeList := none, textResponse := none, seoData := emptySeo,
        activeMode := none } :=
  ⟨by decide,
    (setActiveVideo_restores
        ⟨[⟨5, [], 15, some 105, none, none, none, none⟩], none,
          ⟨none, some [apos], emptySeo, some MODE_SEO⟩⟩ 5
        ⟨5, [], 15, some 105, none, none, none, none⟩
        (by decide)).2.2 (by decide) (by decide)⟩

theorem head?_dropWhile_not (p : Char → Bool) (l : List Char) :
    ∀ c, ((l.dropWhile p).head? = some c) → p c = false := by
  induction l with
  | nil =>
    intro c h
    simp [List.dropWhile] at h
  | cons a t ih =>
    intro c h
    rw [List.dropWhile_cons] at h
    by_cases hp : p a
    · rw [if_pos hp] at h
      exact ih c h
    · rw [if_neg hp] at h
      simp only [List.head?_cons, Option.some.injEq] at h
      rw [← h]
      simpa using hp

theorem mem_trimList (s : List Char) (c : Char) (h : c ∈ trimList s) :
    c ∈ s := by
  unfold trimList at h
  rw [List.mem_reverse] at h
  have h2 := (List.dropWhile_sublist (l := (s.dropWhile isJsSpace).reverse)
    (p := isJsSpace)).subset h
  rw [List.mem_reverse] at h2
  exact (List.dropWhile_sublist (l := s) (p := isJsSpace)).subset h2

theorem trimList_head (s : List Char) :
    ∀ c, (trimList s).head? = some c → isJsSpace c = false := by
  intro c h
  unfold trimList at h
  obtain ⟨q, hq⟩ : ∃ q,
      q ++ ((s.dropWhile isJsSpace).reverse.dropWhile isJsSpace) =
        (s.dropWhile isJsSpace).reverse :=
    (List.dropWhile_suffix isJsSpace)
  have hu : s.dropWhile isJsSpace =
      ((s.dropWhile isJsSpace).reverse.dropWhile isJsSpace).reverse ++
        q.reverse := by
    have := congrArg List.reverse hq
    rw [List.reverse_append, List.reverse_reverse] at this
    exact this.symm
  cases he : ((s.dropWhile isJsSpace).reverse.dropWhile isJsSpace).reverse with
  | nil => rw [he] at h; simp at h
  | cons d t =>
    rw [he] at h
    simp only [List.head?_cons, Option.some.injEq] at h
    rw [he] at hu
    rw [← h]
    exact head?_dropWhile_not isJsSpace s d (by rw [hu]; rfl)

theorem trimList_getLast (s : List Char) :
    ∀ c, (trimList s).getLast? = some c → isJsSpace c = false := by
  intro c h
  unfold trimList at h
  rw [List.getLast?_reverse] at h
  exact head?_dropWhile_not isJsSpace _ c h

theorem cleanStr_no_ast (s : List Char) (c : Char) (h : c ∈ cleanStr s) :
    ¬ (c = '*') := by
  unfold cleanStr at h
  have h2 := mem_trimList _ _ h
  unfold removeAst at h2
  rw [List.mem_filter] at h2
  simpa using h2.2

/-- The property claimed of every parsed field: no asterisk anywhere, and
no leading or trailing whitespace. -/
def cleanField (s : List Char) : Prop :=
  (∀ c ∈ s, ¬ (c = '*')) ∧
  (∀ c, s.head? = some c → isJsSpace c = false) ∧
  (∀ c, s.getLast? = some c → isJsSpace c = false)

theorem cleanField_nil : cleanField [] := by
  refine ⟨?_, ?_, ?_⟩ <;> intro c h <;> simp at h

theorem cleanField_cleanStr (x : List Char) : cleanField (cleanStr x) := by
  refine ⟨?_, ?_, ?_⟩
  · intro c hc
    exact cleanStr_no_ast x c hc
  · intro c h
    exact trimList_head _ c h
  · intro c h
    exact trimList_getLast _ c h

theorem getSectionContent_cases (cur : List (List Char))
    (text : List Char) :
    getSectionContent cur text = [] ∨
    ∃ cap, getSectionContent cur text = cleanStr cap := by
  unfold getSectionContent
  cases findSection cur (lookaheadOf cur) text with
  | none => exact Or.inl rfl
  | some cap => exact Or.inr ⟨cap, rfl⟩

theorem cleanField_getSectionContent (cur : List (List Char))
    (text : List Char) : cleanField (getSectionContent cur text) := by
  rcases getSectionContent_cases cur text with h | ⟨cap, h⟩
  · rw [h]; exact cleanField_nil
  · rw [h]; exact cleanField_cleanStr cap

/-- Claim C10: every field returned by the parser contains no asterisk and
has no leading or trailing whitespace (the cleaning strips every asterisk
anywhere in the extracted content and trims the result). -/
theorem parseSeo_fields_clean (text : List Char) :
    cleanField (parseSeoResponse text).title ∧
    cleanField (parseSeoResponse text).russianTitle ∧
    cleanField (parseSeoResponse text).keywords := by
  unfold parseSeoResponse
  by_cases ht : text = []
  · rw [if_pos ht]
    exact ⟨cleanField_nil, cleanField_nil, cleanField_nil⟩
  · rw [if_neg ht]
    dsimp only []
    refine ⟨cleanField_getSectionContent _ _,
      cleanField_getSectionContent _ _, ?_⟩
    split
    · exact cleanField_cleanStr text
    · exact cleanField_getSectionContent _ _

theorem find?_self_of_nodup :
    ∀ (l : List VideoFileEntry) (v : VideoFileEntry),
      (l.map (fun w => w.id)).Nodup → v ∈ l →
      l.find? (fun w => w.id = v.id) = some v := by
  intro l
  induction l with
  | nil =>
    intro v _ hv
    simp at hv
  | cons w t ih =>
    intro v hnd hv
    rw [List.map_cons, List.nodup_cons] at hnd
    rcases List.mem_cons.mp hv with h | h
    · rw [h]
      rw [List.find?_cons_of_pos _ (by simp)]
    · by_cases hw : w.id = v.id
      · exfalso
        apply hnd.1
        rw [hw]
        exact List.mem_map.mpr ⟨v, h, rfl⟩
      · rw [List.find?_cons_of_neg _ (by simpa using hw)]
        exact ih v hnd.2 h

theorem filter_ready_all (st : AppState)
    (hready : ∀ w ∈ st.videoFiles, ¬ (w.geminiFile = none)) :
    st.videoFiles.filter (fun v => ¬ (v.geminiFile = none)) =
      st.videoFiles :=
  List.filter_eq_self.mpr (by intro a ha; simpa using hready a ha)

/-- How the structured mode run rewrites a single record, as a function of
that record generation outcome. -/
def applyOutcome (v : VideoFileEntry) (o : GenOutcome) : VideoFileEntry :=
  match o with
  | .ok resp =>
    match resp.functionCalls.head? with
    | some call =>
      if call.name = setTimecodesName then
        { v with timecodeList := some (unescapeTimecodes call.timecodes) }
      else v
    | none => v
  | .err _ => v

theorem applyOutcome_id (v : VideoFileEntry) (o : GenOutcome) :
    (applyOutcome v o).id = v.id := by
  cases o with
  | ok resp =>
    cases h : resp.functionCalls.head? with
    | some call =>
      by_cases hc : call.name = setTimecodesName
      · simp [applyOutcome, h, hc]
      · simp [applyOutcome, h, hc]
    | none => simp [applyOutcome, h]
  | err e => rfl

theorem results_find_self (gen : Nat → GenOutcome) :
    ∀ (l : List VideoFileEntry) (v : VideoFileEntry),
      (l.map (fun w => w.id)).Nodup → v ∈ l →
      (l.map (fun u => (⟨u.id, gen u.id⟩ : RunResult))).find?
          (fun r => r.id = v.id) = some ⟨v.id, gen v.id⟩ := by
  intro l
  induction l with
  | nil =>
    intro v _ hv
    simp at hv
  | cons w t ih =>
    intro v hnd hv
    rw [List.map_cons, List.nodup_cons] at hnd
    rw [List.map_cons]
    rcases List.mem_cons.mp hv with h | h
    · rw [h]
      rw [List.find?_cons_of_pos _ (by simp)]
    · by_cases hw : w.id = v.id
      · exfalso
        apply hnd.1
        rw [hw]
        exact List.mem_map.mpr ⟨v, h, rfl⟩
      · rw [List.find?_cons_of_neg _ (by simpa using hw)]
        exact ih v hnd.2 h

theorem merge_map_find (gen : Nat → GenOutcome) :
    ∀ (l : List VideoFileEntry) (R : List RunResult) (v : VideoFileEntry),
      (l.map (fun w => w.id)).Nodup → v ∈ l →
      (∀ u ∈ l, R.find? (fun r => r.id = u.id) =
        some ⟨u.id, gen u.id⟩) →
      (l.map (fun w =>
        match R.find? (fun r => r.id = w.id) with
        | some r =>
          match r.outcome with
          | .ok resp =>
            match resp.functionCalls.head? with
            | some call =>
              if call.name = setTimecodesName then
                { w with
                  timecodeList := some (unescapeTimecodes call.timecodes) }
              else w
            | none => w
          | .err _ => w
        | none => w)).find? (fun w => w.id = v.id) =
        some (applyOutcome v (gen v.id)) := by
  intro l
  induction l with
  | nil =>
    intro R v _ hv _
    simp at hv
  | cons w t ih =>
    intro R v hnd hv hR
    rw [List.map_cons, List.nodup_cons] at hnd
    have hRw := hR w (List.mem_cons_self w t)
    rw [List.map_cons, hRw]
    dsimp only []
    have hGid : (match gen w.id with
        | GenOutcome.ok resp =>
          match resp.functionCalls.head? with
          | some call =>
            if call.name = setTimecodesName then
              { w with
                timecodeList := some (unescapeTimecodes call.timecodes) }
            else w
          | none => w
        | GenOutcome.err _ => w) = applyOutcome w (gen w.id) := by
      cases gen w.id with
      | ok resp => rfl
      | err e => rfl
    rw [hGid]
    rcases List.mem_cons.mp hv with h | h
    · rw [← h] at hnd ⊢
      rw [List.find?_cons_of_pos _ (by simp [applyOutcome_id])]
    · by_cases hw : w.id = v.id
      · exfalso
        apply hnd.1
        rw [hw]
        exact List.mem_map.mpr ⟨v, h, rfl⟩
      · rw [List.find?_cons_of_neg _ (by simp [applyOutcome_id, hw])]
        exact ih R v hnd.2 h (fun u hu => hR u (List.mem_cons_of_mem w hu))

theorem onModeSelect_find_char (st : AppState) (modeName : List Char)
    (gen : Nat → GenOutcome)
    (hready : ∀ w ∈ st.videoFiles, ¬ (w.geminiFile = none))
    (hnodup : (st.videoFiles.map (fun w => w.id)).Nodup)
    (v : VideoFileEntry) (hv : v ∈ st.videoFiles) :
    (onModeSelectStructured st modeName true gen).videoFiles.find?
        (fun w => w.id = v.id) = some (applyOutcome v (gen v.id)) := by
  unfold onModeSelectStructured
  dsimp only []
  rw [filter_ready_all st hready, if_pos rfl]
  have hne : ¬ (st.videoFiles.length = 0) := by
    cases hl : st.videoFiles with
    | nil =>
      rw [hl] at hv
      simp at hv
    | cons a t => simp
  rw [if_neg hne]
  dsimp only []
  exact merge_map_find gen st.videoFiles _ v hnodup hv
    (fun u hu => results_find_self gen st.videoFiles u hnodup hu)

theorem onModeSelect_display_char (st : AppState) (modeName : List Char)
    (gen : Nat → GenOutcome)
    (hready : ∀ w ∈ st.videoFiles, ¬ (w.geminiFile = none))
    (hnodup : (st.videoFiles.map (fun w => w.id)).Nodup)
    (aid : Nat) (va : VideoFileEntry) (hva : va ∈ st.videoFiles)
    (haid : st.activeVideoId = some aid) (hvaid : va.id = aid) :
    (onModeSelectStructured st modeName true gen).display =
      (match gen aid with
       | GenOutcome.ok resp =>
         match resp.functionCalls.head? with
         | some call =>
           if call.name = setTimecodesName then
             { timecodeList := some (unescapeTimecodes call.timecodes),
               textResponse := none, seoData := emptySeo,
               activeMode := some modeName }
           else
             { timecodeList := none, textResponse := some badModelMsg,
               seoData := emptySeo, activeMode := some modeName }
         | none =>
           { timecodeList := none, textResponse := some badModelMsg,
             seoData := emptySeo, activeMode := some modeName }
       | GenOutcome.err e =>
         { timecodeList := none, textResponse := some (errMsgOf e),
           seoData := emptySeo, activeMode := some modeName }) := by
  unfold onModeSelectStructured
  dsimp only []
  rw [filter_ready_all st hready, if_pos rfl]
  have hne : ¬ (st.videoFiles.length = 0) := by
    cases hl : st.videoFiles with
    | nil =>
      rw [hl] at hva
      simp at hva
    | cons a t => simp
  rw [if_neg hne]
  dsimp only []
  rw [haid]
  have hpred : (fun r : RunResult => decide (some r.id = some aid)) =
      (fun r : RunResult => decide (r.id = aid)) := by
    funext r
    simp
  rw [hpred, ← hvaid,
    results_find_self gen st.videoFiles va hnodup hva]

/-- Claim C7: when a structured-mode generation result's first returned
call is named `set_timecodes`, the run caches in the video's record the
call's timecode list with, in each entry's text, every backslash-apostrophe
pair replaced by an apostrophe (the unescaping happens before caching). -/
theorem onModeSelect_unescapes (st : AppState) (modeName : List Char)
    (gen : Nat → GenOutcome) (v : VideoFileEntry) (resp : GenResponse)
    (call : FunctionCall)
    (hready : ∀ w ∈ st.videoFiles, ¬ (w.geminiFile = none))
    (hnodup : (st.videoFiles.map (fun w => w.id)).Nodup)
    (hv : v ∈ st.videoFiles)
    (hgen : gen v.id = .ok resp)
    (hcall : resp.functionCalls.head? = some call)
    (hname : call.name = setTimecodesName) :
    (onModeSelectStructured st modeName true gen).videoFiles.find?
        (fun w => w.id = v.id) =
      some { v with
        timecodeList := some (call.timecodes.map
          (fun t => { t with text := unescapeQuotes t.text })) } := by
  rw [onModeSelect_find_char st modeName gen hready hnodup v hv]
  unfold applyOutcome
  rw [hgen]
  dsimp only []
  rw [hcall]
  dsimp only []
  rw [if_pos hname]
  rfl

theorem onModeSelect_unescapes_witness :
    ((∀ w ∈ (⟨[⟨1, [], 11, some 101, none, none, none, none⟩], some 1,
        ⟨none, none, emptySeo, none⟩⟩ : AppState).videoFiles,
      ¬ (w.geminiFile = none)) ∧
     ((fun i => if i = 1 then
        GenOutcome.ok ⟨none, [⟨setTimecodesName,
          [⟨[], ['a', bslash, apos, 'b']⟩]⟩]⟩
      else GenOutcome.err []) 1 = GenOutcome.ok ⟨none, [⟨setTimecodesName,
          [⟨[], ['a', bslash, apos, 'b']⟩]⟩]⟩)) ∧
    (onModeSelectStructured ⟨[⟨1, [], 11, some 101, none, none, none,
        none⟩], some 1, ⟨none, none, emptySeo, none⟩⟩ MODE_SUBTITLES true
        (fun i => if i = 1 then
          GenOutcome.ok ⟨none, [⟨setTimecodesName,
            [⟨[], ['a', bslash, apos, 'b']⟩]⟩]⟩
        else GenOutcome.err [])).videoFiles.find?
        (fun w => w.id = 1) =
      some ⟨1, [], 11, some 101, none, none, none,
        some [⟨[], ['a', apos, 'b']⟩]⟩ :=
  ⟨⟨by decide, by decide⟩, by
    have h := onModeSelect_unescapes
      ⟨[⟨1, [], 11, some 101, none, none, none, none⟩], some 1,
        ⟨none, none, emptySeo, none⟩⟩ MODE_SUBTITLES
      (fun i => if i = 1 then
        GenOutcome.ok ⟨none, [⟨setTimecodesName,
          [⟨[], ['a', bslash, apos, 'b']⟩]⟩]⟩
      else GenOutcome.err [])
      ⟨1, [], 11, some 101, none, none, none, none⟩
      ⟨none, [⟨setTimecodesName, [⟨[], ['a', bslash, apos, 'b']⟩]⟩]⟩
      ⟨setTimecodesName, [⟨[], ['a', bslash, apos, 'b']⟩]⟩
      (by decide) (by decide) (by decide) (by decide) (by decide) (by decide)
    exact h.trans (by decide)⟩

theorem onModeSelect_display_inactive (st : AppState)
    (modeName : List Char) (gen : Nat → GenOutcome)
    (hready : ∀ w ∈ st.videoFiles, ¬ (w.geminiFile = none))
    (hne : ¬ (st.videoFiles.length = 0))
    (hnoact : ∀ v ∈ st.videoFiles, ¬ (st.activeVideoId = some v.id)) :
    (onModeSelectStructured st modeName true gen).display =
      { timecodeList := none, textResponse := none, seoData := emptySeo,
        activeMode := some modeName } := by
  unfold onModeSelectStructured
  dsimp only []
  rw [filter_ready_all st hready, if_pos rfl, if_neg hne]
  dsimp only []
  have hfind : (st.videoFiles.map
      (fun v => (⟨v.id, gen v.id⟩ : RunResult))).find?
      (fun r => some r.id = st.activeVideoId) = none := by
    rw [List.find?_eq_none]
    intro r hr
    obtain ⟨v, hv, hveq⟩ := List.mem_map.mp hr
    rw [← hveq]
    simp only [decide_eq_true_eq]
    intro hcon
    exact hnoact v hv hcon.symm
  rw [hfind]

/-- Claim C4 (amended): running a structured mode over all ready videos
where exactly one target's generation errors updates every other video
with its unescaped cached timecode list, leaves the failing video's record
unchanged, and puts an error message in the display text exactly when the
failing video is the active one; the merge is total, so no failure aborts
a sibling. -/
theorem onModeSelect_error_isolated (st : AppState) (modeName : List Char)
    (gen : Nat → GenOutcome) (fid : Nat) (e : List Char)
    (hready : ∀ w ∈ st.videoFiles, ¬ (w.geminiFile = none))
    (hnodup : (st.videoFiles.map (fun w => w.id)).Nodup)
    (hfail : gen fid = .err e)
    (hsucc : ∀ w ∈ st.videoFiles, ¬ (w.id = fid) → ∃ resp call,
      gen w.id = .ok resp ∧ resp.functionCalls.head? = some call ∧
      call.name = setTimecodesName) :
    (∀ w ∈ st.videoFiles, ¬ (w.id = fid) → ∃ call : FunctionCall,
      (onModeSelectStructured st modeName true gen).videoFiles.find?
          (fun u => u.id = w.id) =
        some { w with
          timecodeList := some (unescapeTimecodes call.timecodes) }) ∧
    (∀ w ∈ st.videoFiles, w.id = fid →
      (onModeSelectStructured st modeName true gen).videoFiles.find?
          (fun u => u.id = w.id) = some w) ∧
    (st.activeVideoId = some fid → (∃ va ∈ st.videoFiles, va.id = fid) →
      (onModeSelectStructured st modeName true gen).display.textResponse =
        some (errMsgOf e)) ∧
    (¬ (st.activeVideoId = some fid) →
      (onModeSelectStructured st modeName true gen).display.textResponse =
        none) := by
  refine ⟨?_, ?_, ?_, ?_⟩
  · intro w hw hneq
    obtain ⟨resp, call, hg, hc, hn⟩ := hsucc w hw hneq
    refine ⟨call, ?_⟩
    rw [onModeSelect_find_char st modeName gen hready hnodup w hw]
    unfold applyOutcome
    rw [hg]
    dsimp only []
    rw [hc]
    dsimp only []
    rw [if_pos hn]
  · intro w hw heq
    rw [onModeSelect_find_char st modeName gen hready hnodup w hw]
    unfold applyOutcome
    rw [heq, hfail]
  · intro hact hex
    obtain ⟨va, hva, hvaid⟩ := hex
    rw [onModeSelect_display_char st modeName gen hready hnodup fid va hva
      hact hvaid, hfail]
  · intro hnact
    by_cases hlen : st.videoFiles.length = 0
    · unfold onModeSelectStructured
      dsimp only []
      rw [filter_ready_all st hready, if_pos rfl, if_pos hlen]
    · by_cases hex : ∃ va ∈ st.videoFiles, st.activeVideoId = some va.id
      · obtain ⟨va, hva, hact⟩ := hex
        have hvafid : ¬ (va.id = fid) := by
          intro hcon
          apply hnact
          rw [hact, hcon]
        obtain ⟨resp, call, hg, hc, hn⟩ := hsucc va hva hvafid
        rw [onModeSelect_display_char st modeName gen hready hnodup va.id
          va hva hact rfl, hg]
        dsimp only []
        rw [hc]
        dsimp only []
        rw [if_pos hn]
      · rw [onModeSelect_display_inactive st modeName gen hready hlen
          (fun v hv hcon => hex ⟨v, hv, hcon⟩)]

/-- Claim C4 counterexample: with two ready videos where the non-active
one fails, the failing video's record is completely unchanged and the
display carries no error text, so the failing video does not end in an
error state (while the sibling still gets its cached timecode list and
the merge completes). -/
theorem onModeSelect_failing_video_unmarked :
    (onModeSelectStructured ⟨[⟨1, [], 11, some 101, none, none, none,
        none⟩, ⟨2, [], 12, some 102, none, none, none, none⟩], some 1,
        ⟨none, none, emptySeo, none⟩⟩ MODE_SUBTITLES true
        (fun i => if i = 1 then
          GenOutcome.ok ⟨none, [⟨setTimecodesName, [⟨[], []⟩]⟩]⟩
        else GenOutcome.err ['b'])).videoFiles.find?
        (fun w => w.id = 2) =
      some ⟨2, [], 12, some 102, none, none, none, none⟩ ∧
    (onModeSelectStructured ⟨[⟨1, [], 11, some 101, none, none, none,
        none⟩, ⟨2, [], 12, some 102, none, none, none, none⟩], some 1,
        ⟨none, none, emptySeo, none⟩⟩ MODE_SUBTITLES true
        (fun i => if i = 1 then
          GenOutcome.ok ⟨none, [⟨setTimecodesName, [⟨[], []⟩]⟩]⟩
        else GenOutcome.err ['b'])).display.textResponse = none ∧
    (onModeSelectStructured ⟨[⟨1, [], 11, some 101, none, none, none,
        none⟩, ⟨2, [], 12, some 102, none, none, none, none⟩], some 1,
        ⟨none, none, emptySeo, none⟩⟩ MODE_SUBTITLES true
        (fun i => if i = 1 then
          GenOutcome.ok ⟨none, [⟨setTimecodesName, [⟨[], []⟩]⟩]⟩
        else GenOutcome.err ['b'])).videoFiles.find?
        (fun w => w.id = 1) =
      some ⟨1, [], 11, some 101, none, none, none, some [⟨[], []⟩]⟩ := by
  refine ⟨by decide, by decide, by decide⟩

theorem onModeSelect_error_isolated_witness :
    ((fun i => if i = 1 then
        GenOutcome.ok ⟨none, [⟨setTimecodesName, [⟨[], []⟩]⟩]⟩
      else GenOutcome.err ['b']) 2 = GenOutcome.err ['b'] ∧
     (∀ w ∈ (⟨[⟨1, [], 11, some 101, none, none, none, none⟩,
        ⟨2, [], 12, some 102, none, none, none, none⟩], some 2,
        ⟨none, none, emptySeo, none⟩⟩ : AppState).videoFiles,
      ¬ (w.geminiFile = none))) ∧
    (onModeSelectStructured ⟨[⟨1, [], 11, some 101, none, none, none,
        none⟩, ⟨2, [], 12, some 102, none, none, none, none⟩], some 2,
        ⟨none, none, emptySeo, none⟩⟩ MODE_SUBTITLES true
        (fun i => if i = 1 then
          GenOutcome.ok ⟨none, [⟨setTimecodesName, [⟨[], []⟩]⟩]⟩
        else GenOutcome.err ['b'])).videoFiles.find?
        (fun u => u.id = 2) =
      some ⟨2, [], 12, some 102, none, none, none, none⟩ ∧
    (onModeSelectStructured ⟨[⟨1, [], 11, some 101, none, none, none,
        none⟩, ⟨2, [], 12, some 102, none, none, none, none⟩], some 2,
        ⟨none, none, emptySeo, none⟩⟩ MODE_SUBTITLES true
        (fun i => if i = 1 then
          GenOutcome.ok ⟨none, [⟨setTimecodesName, [⟨[], []⟩]⟩]⟩
        else GenOutcome.err ['b'])).display.textResponse =
      some (errMsgOf ['b']) := by
  have h := onModeSelect_error_isolated
    ⟨[⟨1, [], 11, some 101, none, none, none, none⟩,
      ⟨2, [], 12, some 102, none, none, none, none⟩], some 2,
      ⟨none, none, emptySeo, none⟩⟩ MODE_SUBTITLES
    (fun i => if i = 1 then
      GenOutcome.ok ⟨none, [⟨setTimecodesName, [⟨[], []⟩]⟩]⟩
    else GenOutcome.err ['b']) 2 ['b']
    (by decide) (by decide) (by decide)
    (by
      intro w hw hneq
      rcases List.mem_cons.mp hw with h1 | h1
      · refine ⟨⟨none, [⟨setTimecodesName, [⟨[], []⟩]⟩]⟩,
          ⟨setTimecodesName, [⟨[], []⟩]⟩, ?_, rfl, rfl⟩
        rw [h1]
        rfl
      · exfalso
        apply hneq
        rcases List.mem_cons.mp h1 with h2 | h2
        · rw [h2]
        · simp at h2)
  exact ⟨⟨by decide, by decide⟩,
    h.2.1 ⟨2, [], 12, some 102, none, none, none, none⟩
      (by decide) (by decide),
    h.2.2.1 (by decide) ⟨⟨2, [], 12, some 102, none, none, none, none⟩,
      by decide, by decide⟩⟩

theorem matchAnyHeader_some (hs : List (List Char)) (s r : List Char)
    (h : matchAnyHeader hs s = some r) :
    ∃ hd ∈ hs, matchOneHeader hd s = some r := by
  induction hs with
  | nil => simp [matchAnyHeader] at h
  | cons a t ih =>
    unfold matchAnyHeader at h
    cases hm : matchOneHeader a s with
    | some r2 =>
      rw [hm] at h
      refine ⟨a, List.mem_cons_self a t, ?_⟩
      rw [hm]
      exact h
    | none =>
      rw [hm] at h
      obtain ⟨hd, hmem, hone⟩ := ih h
      exact ⟨hd, List.mem_cons_of_mem a hmem, hone⟩

theorem afterHeaderColon_single (hs : List (List Char)) (s r : List Char)
    (h : afterHeaderColon hs s = some r) :
    ∃ hd ∈ hs, singleHeaderColon hd s = true := by
  unfold afterHeaderColon at h
  split at h
  · rename_i r1 hm
    split at h
    · rename_i d rest hsw
      by_cases hdc : d = ':'
      · obtain ⟨hd, hmem, hone⟩ := matchAnyHeader_some _ _ _ hm
        refine ⟨hd, hmem, ?_⟩
        unfold singleHeaderColon
        rw [hone]
        dsimp only []
        rw [hsw]
        dsimp only []
        rw [hdc]
        decide
      · rw [if_neg hdc] at h
        exact absurd h (by simp)
    · exact absurd h (by simp)
  · exact absurd h (by simp)

theorem findSection_some_header (hs lhs : List (List Char)) :
    ∀ text cap, findSection hs lhs text = some cap →
      ∃ hd ∈ hs, headerColonSomewhere hd text = true := by
  intro text
  induction text with
  | nil =>
    intro cap h
    simp [findSection] at h
  | cons c rest ih =>
    intro cap h
    unfold findSection at h
    split at h
    · rename_i after hafter
      obtain ⟨hd, hmem, hsingle⟩ := afterHeaderColon_single _ _ _ hafter
      refine ⟨hd, hmem, ?_⟩
      unfold headerColonSomewhere
      rw [hsingle, Bool.true_or]
    · rename_i hafter
      obtain ⟨hd, hmem, hsw⟩ := ih cap h
      refine ⟨hd, hmem, ?_⟩
      unfold headerColonSomewhere
      rw [hsw, Bool.or_true]

theorem getSectionContent_empty_of_no_headers (cur : List (List Char))
    (text : List Char)
    (hsub : ∀ hd ∈ cur, hd ∈ allHeaders)
    (h : anyHeaderColonInText text = false) :
    getSectionContent cur text = [] := by
  have hall : ∀ hd ∈ allHeaders, headerColonSomewhere hd text = false := by
    intro hd hmem
    unfold anyHeaderColonInText at h
    rw [List.any_eq_false] at h
    simpa using h hd hmem
  unfold getSectionContent
  cases hf : findSection cur (lookaheadOf cur) text with
  | none => rfl
  | some cap =>
    obtain ⟨hd, hmem, hsome⟩ := findSection_some_header _ _ text cap hf
    rw [hall hd (hsub hd hmem)] at hsome
    exact absurd hsome (by simp)

/-- Claim C2: when no recognized header token occurs anywhere in the text
followed (after optional asterisks and whitespace) by a colon, the parser
returns the whole cleaned text as the keywords and empty titles. -/
theorem parseSeo_no_headers_fallback (text : List Char)
    (h : anyHeaderColonInText text = false) :
    parseSeoResponse text = ⟨[], [], cleanStr text⟩ := by
  have ht : getSectionContent titleCur text = [] := by
    refine getSectionContent_empty_of_no_headers _ _ ?_ h
    intro hd hmem
    rcases List.mem_cons.mp hmem with h1 | h1
    · rw [h1]
      simp [allHeaders]
    · rcases List.mem_cons.mp h1 with h2 | h2
      · rw [h2]
        simp [allHeaders]
      · simp at h2
  have hr : getSectionContent russianCur text = [] := by
    refine getSectionContent_empty_of_no_headers _ _ ?_ h
    intro hd hmem
    rcases List.mem_cons.mp hmem with h1 | h1
    · rw [h1]
      simp [allHeaders]
    · rcases List.mem_cons.mp h1 with h2 | h2
      · rw [h2]
        simp [allHeaders]
      · simp at h2
  have hk : getSectionContent keywordsCur text = [] := by
    refine getSectionContent_empty_of_no_headers _ _ ?_ h
    intro hd hmem
    rcases List.mem_cons.mp hmem with h1 | h1
    · rw [h1]
      simp [allHeaders]
    · rcases List.mem_cons.mp h1 with h2 | h2
      · rw [h2]
        simp [allHeaders]
      · simp at h2
  unfold parseSeoResponse
  by_cases htext : text = []
  · rw [if_pos htext, htext]
    rfl
  · rw [if_neg htext]
    dsimp only []
    rw [ht, hr, hk, if_pos ⟨rfl, rfl, rfl, h⟩]

theorem parseSeo_no_headers_fallback_witness :
    anyHeaderColonInText "cat, pet, cute".data = false ∧
    parseSeoResponse "cat, pet, cute".data =
      ⟨[], [], cleanStr "cat, pet, cute".data⟩ :=
  ⟨by decide, parseSeo_no_headers_fallback _ (by decide)⟩

/-- Claim C1 counterexample: the same three header sections in two
different orders parse to different title values.  When the localized
title section precedes the title section, the title pattern matches the
`Title` substring embedded inside the `Russian Title` header and its
capture swallows the following line. -/
theorem parseSeo_order_dependent :
    parseSeoResponse "Title: X\nRussian Title: Y\nKeywords: Z".data =
      ⟨['X'], ['Y'], ['Z']⟩ ∧
    parseSeoResponse "Russian Title: Y\nTitle: X\nKeywords: Z".data =
      ⟨"Y\nTitle: X".data, ['Y'], ['Z']⟩ ∧
    ¬ ((parseSeoResponse
          "Russian Title: Y\nTitle: X\nKeywords: Z".data).title =
        (parseSeoResponse
          "Title: X\nRussian Title: Y\nKeywords: Z".data).title) :=
  ⟨by decide, by decide, by decide⟩

theorem caseFold_of_ws (c : Char) (h : isJsSpace c = true) :
    caseFold c = c := by
  unfold isJsSpace at h
  simp only [Bool.or_eq_true, decide_eq_true_eq, Bool.and_eq_true] at h
  unfold caseFold
  dsimp only []
  split
  · rename_i h1
    exfalso
    simp only [Bool.and_eq_true, decide_eq_true_eq] at h1
    omega
  split
  · rename_i h1
    exfalso
    simp only [Bool.and_eq_true, decide_eq_true_eq] at h1
    omega
  split
  · rename_i h1
    exfalso
    omega
  rfl

theorem not_ws_of_fold (c d : Char) (hf : caseFold c = d)
    (hd : isJsSpace d = false) : isJsSpace c = false := by
  by_cases h : isJsSpace c = true
  · rw [caseFold_of_ws c h] at hf
    rw [hf] at h
    rw [h] at hd
    exact absurd hd (by simp)
  · simpa using h

theorem ne_of_fold (c d e : Char) (hf : caseFold c = d)
    (he : caseFold e = e) (hne : ¬ (d = e)) : ¬ (c = e) := by
  intro h
  apply hne
  rw [← hf, h, he]

theorem mem_allHeaders_cases (H : List Char) (hH : H ∈ allHeaders) :
    H = hdrZagolovok ∨ H = hdrTitle ∨ H = hdrRusTitle ∨
    H = hdrRusZagolovok ∨ H = hdrKlyuch ∨ H = hdrKeywords := by
  simpa [allHeaders] using hH

theorem hdr_no_special (H : List Char) (hH : H ∈ allHeaders) :
    (¬ ('*' ∈ foldList H)) ∧ (¬ ('\n' ∈ foldList H)) ∧
    (¬ (':' ∈ foldList H)) ∧
    (∀ d, (foldList H).head? = some d →
      isJsSpace d = false ∧ ¬ (d = '*')) ∧
    (∀ d, (foldList H).getLast? = some d →
      isJsSpace d = false ∧ ¬ (d = '*')) ∧
    ¬ (H = []) := by
  rcases mem_allHeaders_cases H hH with h | h | h | h | h | h <;>
    subst h <;> exact ⟨by decide, by decide, by decide, by decide,
      by decide, by decide⟩

theorem variant_mem_ne (h H : List Char) (hv : foldList h = foldList H)
    (e : Char) (hfix : caseFold e = e) (he : ¬ (e ∈ foldList H)) :
    ∀ ch ∈ h, ¬ (ch = e) := by
  intro ch hch heq
  apply he
  rw [← hv]
  subst heq
  rw [← hfix]
  exact List.mem_map.mpr ⟨ch, hch, rfl⟩

theorem variant_head (h H : List Char) (hv : foldList h = foldList H)
    (hH : H ∈ allHeaders) :
    ∀ ch, h.head? = some ch → isJsSpace ch = false ∧ ¬ (ch = '*') := by
  intro ch hch
  have hmap : (foldList h).head? = some (caseFold ch) := by
    unfold foldList
    rw [List.head?_map, hch]
    rfl
  rw [hv] at hmap
  obtain ⟨-, -, -, hhead, -, -⟩ := hdr_no_special H hH
  obtain ⟨hws, hast⟩ := hhead (caseFold ch) hmap
  refine ⟨not_ws_of_fold ch (caseFold ch) rfl hws, ?_⟩
  exact ne_of_fold ch (caseFold ch) '*' rfl rfl hast

theorem variant_last (h H : List Char) (hv : foldList h = foldList H)
    (hH : H ∈ allHeaders) :
    ∀ ch, h.getLast? = some ch → isJsSpace ch = false ∧ ¬ (ch = '*') := by
  intro ch hch
  have hmap : (foldList h).getLast? = some (caseFold ch) := by
    unfold foldList
    rw [List.getLast?_map, hch]
    rfl
  rw [hv] at hmap
  obtain ⟨-, -, -, -, hlast, -⟩ := hdr_no_special H hH
  obtain ⟨hws, hast⟩ := hlast (caseFold ch) hmap
  refine ⟨not_ws_of_fold ch (caseFold ch) rfl hws, ?_⟩
  exact ne_of_fold ch (caseFold ch) '*' rfl rfl hast

theorem variant_ne_nil (h H : List Char) (hv : foldList h = foldList H)
    (hH : H ∈ allHeaders) : ¬ (h = []) := by
  intro he
  obtain ⟨-, -, -, -, -, hnil⟩ := hdr_no_special H hH
  apply hnil
  have : foldList H = [] := by rw [← hv, he]; rfl
  cases hc : H with
  | nil => rfl
  | cons x t =>
    rw [hc] at this
    exact absurd this (by simp [foldList])

theorem variant_no_special (h H : List Char)
    (hv : foldList h = foldList H) (hH : H ∈ allHeaders) :
    ∀ ch ∈ h, ¬ (ch = '*') ∧ ¬ (ch = '\n') ∧ ¬ (ch = ':') := by
  intro ch hch
  obtain ⟨h1, h2, h3, -, -, -⟩ := hdr_no_special H hH
  exact ⟨variant_mem_ne h H hv '*' rfl h1 ch hch,
    variant_mem_ne h H hv '\n' rfl h2 ch hch,
    variant_mem_ne h H hv ':' rfl h3 ch hch⟩

theorem skipAst_nil : skipAst [] = [] := rfl

theorem skipWs_nil : skipWs [] = [] := rfl

theorem skipAst_cons_ne (c : Char) (l : List Char) (h : ¬ (c = '*')) :
    skipAst (c :: l) = c :: l := by
  unfold skipAst
  rw [List.dropWhile_cons_of_neg (by simpa using h)]

theorem skipWs_cons_ne (c : Char) (l : List Char)
    (h : isJsSpace c = false) : skipWs (c :: l) = c :: l := by
  unfold skipWs
  rw [List.dropWhile_cons_of_neg (by simp [h])]

theorem skipWs_cons_ws (c : Char) (l : List Char)
    (h : isJsSpace c = true) : skipWs (c :: l) = skipWs l := by
  unfold skipWs
  rw [List.dropWhile_cons_of_pos h]

theorem skipAst_replicate_append (n : Nat) (l : List Char) :
    skipAst (List.replicate n '*' ++ l) = skipAst l := by
  induction n with
  | zero => rfl
  | succ m ih =>
    rw [List.replicate_succ, List.cons_append]
    unfold skipAst
    rw [List.dropWhile_cons_of_pos (by simp)]
    exact ih

theorem skipAst_of_head (l : List Char)
    (h : ∀ d, l.head? = some d → ¬ (d = '*')) : skipAst l = l := by
  cases l with
  | nil => rfl
  | cons c t => exact skipAst_cons_ne c t (h c rfl)

theorem skipWs_of_head (l : List Char)
    (h : ∀ d, l.head? = some d → isJsSpace d = false) : skipWs l = l := by
  cases l with
  | nil => rfl
  | cons c t => exact skipWs_cons_ne c t (h c rfl)

theorem head?_replicate_ast_append (n : Nat) (l : List Char)
    (h : ∀ d, l.head? = some d → isJsSpace d = false) :
    ∀ d, (List.replicate n '*' ++ l).head? = some d →
      isJsSpace d = false := by
  intro d hd
  cases n with
  | zero => exact h d (by simpa using hd)
  | succ m =>
    rw [List.replicate_succ, List.cons_append, List.head?_cons] at hd
    injection hd with hd
    rw [← hd]
    decide

theorem matchOneHeader_of_fold (H h' X : List Char)
    (hv : foldList h' = foldList H) :
    matchOneHeader H (h' ++ X) = some X := by
  have hlen : h'.length = H.length := by
    have := congrArg List.length hv
    simpa [foldList] using this
  unfold matchOneHeader
  rw [← hlen, List.take_left, List.drop_left, if_pos hv]

theorem matchOneHeader_none_head (A : List Char) (a c : Char)
    (s : List Char) (hA : A.head? = some a) (hs : s.head? = some c)
    (hne : ¬ (caseFold c = caseFold a)) : matchOneHeader A s = none := by
  cases A with
  | nil => simp at hA
  | cons a0 tA =>
    cases s with
    | nil => simp at hs
    | cons c0 ts =>
      rw [List.head?_cons] at hA hs
      injection hA with hA
      injection hs with hs
      subst hA
      subst hs
      unfold matchOneHeader
      rw [if_neg]
      intro hcontra
      rw [List.length_cons, List.take_succ_cons] at hcontra
      unfold foldList at hcontra
      rw [List.map_cons, List.map_cons] at hcontra
      injection hcontra with h1 h2
      exact hne h1

theorem matchAnyHeader_of_fold (hs : List (List Char)) (H h' X : List Char)
    (hmem : H ∈ hs) (hv : foldList h' = foldList H)
    (hbefore : ∀ A ∈ hs, ¬ (A = H) → matchOneHeader A (h' ++ X) = none) :
    matchAnyHeader hs (h' ++ X) = some X := by
  induction hs with
  | nil => simp at hmem
  | cons A t ih =>
    by_cases hA : A = H
    · subst hA
      unfold matchAnyHeader
      rw [matchOneHeader_of_fold A h' X hv]
    · unfold matchAnyHeader
      rw [hbefore A (List.mem_cons_self A t) hA]
      rcases List.mem_cons.mp hmem with h1 | h1
      · exact absurd h1.symm hA
      · exact ih h1 (fun B hB hBne =>
          hbefore B (List.mem_cons_of_mem A hB) hBne)

/-- One assembled section, followed by the rest of the text:
`***Header***: content` (with `a` and `b` emphasis asterisks). -/
def sectionTail (a : Nat) (h : List Char) (b : Nat) (c rest : List Char) :
    List Char :=
  List.replicate a '*' ++
    (h ++ (List.replicate b '*' ++ (':' :: ' ' :: (c ++ rest))))

theorem afterHeaderColon_sectionTail (hs : List (List Char)) (a b : Nat)
    (h' c rest : List Char) (hne : ¬ (h' = []))
    (hhead : ∀ d, h'.head? = some d → isJsSpace d = false ∧ ¬ (d = '*'))
    (hmatch : matchAnyHeader hs
        (h' ++ (List.replicate b '*' ++ (':' :: ' ' :: (c ++ rest)))) =
      some (List.replicate b '*' ++ (':' :: ' ' :: (c ++ rest)))) :
    afterHeaderColon hs (sectionTail a h' b c rest) =
      some (' ' :: (c ++ rest)) := by
  obtain ⟨c0, t0, hc0⟩ : ∃ c0 t0, h' = c0 :: t0 := by
    cases h' with
    | nil => exact absurd rfl hne
    | cons x t => exact ⟨x, t, rfl⟩
  have hh := hhead c0 (by rw [hc0]; rfl)
  unfold afterHeaderColon sectionTail
  have e1 : skipAst (List.replicate a '*' ++
      (h' ++ (List.replicate b '*' ++ (':' :: ' ' :: (c ++ rest))))) =
      h' ++ (List.replicate b '*' ++ (':' :: ' ' :: (c ++ rest))) := by
    rw [skipAst_replicate_append]
    apply skipAst_of_head
    intro d hd
    rw [hc0, List.cons_append, List.head?_cons] at hd
    injection hd with hd
    rw [← hd]
    exact hh.2
  have e2 : skipWs (h' ++ (List.replicate b '*' ++
      (':' :: ' ' :: (c ++ rest)))) =
      h' ++ (List.replicate b '*' ++ (':' :: ' ' :: (c ++ rest))) := by
    apply skipWs_of_head
    intro d hd
    rw [hc0, List.cons_append, List.head?_cons] at hd
    injection hd with hd
    rw [← hd]
    exact hh.1
  rw [e1, e2, hmatch]
  have e3 : skipAst (List.replicate b '*' ++
      (':' :: ' ' :: (c ++ rest))) = ':' :: ' ' :: (c ++ rest) := by
    rw [skipAst_replicate_append]
    exact skipAst_cons_ne ':' _ (by decide)
  have e4 : skipWs (':' :: ' ' :: (c ++ rest)) =
      ':' :: ' ' :: (c ++ rest) :=
    skipWs_cons_ne ':' _ (by decide)
  dsimp only []
  rw [e3, e4]
  dsimp only []
  rw [if_pos rfl]

theorem lookaheadHere_sectionTail (lhs : List (List Char)) (a b : Nat)
    (h' c rest : List Char) (hne : ¬ (h' = []))
    (hhead : ∀ d, h'.head? = some d → isJsSpace d = false ∧ ¬ (d = '*'))
    (hmatch : matchAnyHeader lhs
        (h' ++ (List.replicate b '*' ++ (':' :: ' ' :: (c ++ rest)))) =
      some (List.replicate b '*' ++ (':' :: ' ' :: (c ++ rest)))) :
    lookaheadHere lhs ('\n' :: sectionTail a h' b c rest) = true := by
  obtain ⟨c0, t0, hc0⟩ : ∃ c0 t0, h' = c0 :: t0 := by
    cases h' with
    | nil => exact absurd rfl hne
    | cons x t => exact ⟨x, t, rfl⟩
  have hh := hhead c0 (by rw [hc0]; rfl)
  unfold lookaheadHere
  dsimp only []
  rw [if_pos rfl]
  have e0 : skipWs (sectionTail a h' b c rest) =
      sectionTail a h' b c rest := by
    apply skipWs_of_head
    unfold sectionTail
    apply head?_replicate_ast_append
    intro d hd
    rw [hc0, List.cons_append, List.head?_cons] at hd
    injection hd with hd
    rw [← hd]
    exact hh.1
  have e1 : skipAst (sectionTail a h' b c rest) =
      h' ++ (List.replicate b '*' ++ (':' :: ' ' :: (c ++ rest))) := by
    unfold sectionTail
    rw [skipAst_replicate_append]
    apply skipAst_of_head
    intro d hd
    rw [hc0, List.cons_append, List.head?_cons] at hd
    injection hd with hd
    rw [← hd]
    exact hh.2
  have e2 : skipWs (h' ++ (List.replicate b '*' ++
      (':' :: ' ' :: (c ++ rest)))) =
      h' ++ (List.replicate b '*' ++ (':' :: ' ' :: (c ++ rest))) := by
    apply skipWs_of_head
    intro d hd
    rw [hc0, List.cons_append, List.head?_cons] at hd
    injection hd with hd
    rw [← hd]
    exact hh.1
  rw [e0, e1, e2, hmatch]
  have e3 : skipAst (List.replicate b '*' ++
      (':' :: ' ' :: (c ++ rest))) = ':' :: ' ' :: (c ++ rest) := by
    rw [skipAst_replicate_append]
    exact skipAst_cons_ne ':' _ (by decide)
  have e4 : skipWs (':' :: ' ' :: (c ++ rest)) =
      ':' :: ' ' :: (c ++ rest) :=
    skipWs_cons_ne ':' _ (by decide)
  dsimp only []
  rw [e3, e4]
  rfl

theorem lookaheadHere_cons_ne (lhs : List (List Char)) (x : Char)
    (l : List Char) (h : ¬ (x = '\n')) :
    lookaheadHere lhs (x :: l) = false := by
  unfold lookaheadHere
  dsimp only []
  rw [if_neg h]

theorem captureContent_append (lhs : List (List Char)) (c tail : List Char)
    (hc : ∀ ch ∈ c, ¬ (ch = '\n'))
    (htail : tail = [] ∨ lookaheadHere lhs tail = true) :
    captureContent lhs (c ++ tail) = c := by
  induction c with
  | nil =>
    rw [List.nil_append]
    rcases htail with h | h
    · rw [h]
      rfl
    · cases tail with
      | nil => rfl
      | cons x t =>
        unfold captureContent
        simp [h]
  | cons y t ih =>
    rw [List.cons_append]
    unfold captureContent
    rw [lookaheadHere_cons_ne lhs y _
      (hc y (List.mem_cons_self y t))]
    rw [if_neg Bool.false_ne_true]
    rw [ih (fun ch hch => hc ch (List.mem_cons_of_mem y hch))]

/-- A well-behaved section content: nonempty, free of newlines, asterisks
and colons, and neither starting nor ending with whitespace. -/
def goodContent (c : List Char) : Bool :=
  (¬ (c = [])) &&
  c.all (fun ch => (¬ (ch = '\n')) && (¬ (ch = '*')) && (¬ (ch = ':'))) &&
  (match c.head? with
   | some ch => ¬ (isJsSpace ch)
   | none => true) &&
  (match c.getLast? with
   | some ch => ¬ (isJsSpace ch)
   | none => true)

theorem goodContent_props (c : List Char) (h : goodContent c = true) :
    ¬ (c = []) ∧
    (∀ ch ∈ c, ¬ (ch = '\n') ∧ ¬ (ch = '*') ∧ ¬ (ch = ':')) ∧
    (∀ ch, c.head? = some ch → isJsSpace ch = false) ∧
    (∀ ch, c.getLast? = some ch → isJsSpace ch = false) := by
  unfold goodContent at h
  rw [Bool.and_eq_true, Bool.and_eq_true, Bool.and_eq_true] at h
  obtain ⟨⟨⟨h1, h2⟩, h3⟩, h4⟩ := h
  refine ⟨by simpa using h1, ?_, ?_, ?_⟩
  · intro ch hch
    have hh := List.all_eq_true.mp h2 ch hch
    rw [Bool.and_eq_true, Bool.and_eq_true] at hh
    exact ⟨by simpa using hh.1.1, by simpa using hh.1.2,
      by simpa using hh.2⟩
  · intro ch hch
    rw [hch] at h3
    simpa using h3
  · intro ch hch
    rw [hch] at h4
    simpa using h4

theorem trimList_eq_self (c : List Char)
    (hhead : ∀ ch, c.head? = some ch → isJsSpace ch = false)
    (hlast : ∀ ch, c.getLast? = some ch → isJsSpace ch = false) :
    trimList c = c := by
  unfold trimList
  have h1 : c.dropWhile isJsSpace = c := by
    have := skipWs_of_head c hhead
    unfold skipWs at this
    exact this
  rw [h1]
  have h2 : c.reverse.dropWhile isJsSpace = c.reverse := by
    have := skipWs_of_head c.reverse (by
      intro ch hch
      rw [List.head?_reverse] at hch
      exact hlast ch hch)
    unfold skipWs at this
    exact this
  rw [h2, List.reverse_reverse]

theorem cleanStr_eq_self (c : List Char)
    (hast : ∀ ch ∈ c, ¬ (ch = '*'))
    (hhead : ∀ ch, c.head? = some ch → isJsSpace ch = false)
    (hlast : ∀ ch, c.getLast? = some ch → isJsSpace ch = false) :
    cleanStr c = c := by
  unfold cleanStr
  have h1 : removeAst c = c := by
    unfold removeAst
    rw [List.filter_eq_self]
    intro a ha
    simpa using hast a ha
  rw [h1]
  exact trimList_eq_self c hhead hlast

theorem matchAnyHeader_some_decomp (hs : List (List Char))
    (s r : List Char) (h : matchAnyHeader hs s = some r) :
    ∃ H hp, H ∈ hs ∧ s = hp ++ r ∧ foldList hp = foldList H := by
  obtain ⟨H, hmem, hone⟩ := matchAnyHeader_some hs s r h
  unfold matchOneHeader at hone
  by_cases hc : foldList (s.take H.length) = foldList H
  · rw [if_pos hc] at hone
    injection hone with hone
    exact ⟨H, s.take H.length, hmem,
      by rw [← hone, List.take_append_drop], hc⟩
  · rw [if_neg hc] at hone
    exact absurd hone (by simp)

theorem afterHeaderColon_inv (hs : List (List Char)) (s r : List Char)
    (h : afterHeaderColon hs s = some r) :
    ∃ H a w hp a2 w2,
      H ∈ hs ∧
      s = a ++ (w ++ (hp ++ (a2 ++ (w2 ++ (':' :: r))))) ∧
      (∀ ch ∈ a, ch = '*') ∧ (∀ ch ∈ w, isJsSpace ch = true) ∧
      foldList hp = foldList H ∧
      (∀ ch ∈ a2, ch = '*') ∧ (∀ ch ∈ w2, isJsSpace ch = true) := by
  unfold afterHeaderColon at h
  split at h
  · rename_i r1 hm
    split at h
    · rename_i d rest hsw
      by_cases hdc : d = ':'
      · rw [if_pos hdc] at h
        injection h with h
        subst h
        subst hdc
        obtain ⟨H, hp, hmem, hs1, hfold⟩ :=
          matchAnyHeader_some_decomp _ _ _ hm
        have d1 : s.takeWhile (fun ch => ch = '*') ++ skipAst s = s := by
          unfold skipAst
          exact List.takeWhile_append_dropWhile _ _
        have d2 : (skipAst s).takeWhile isJsSpace ++ skipWs (skipAst s) =
            skipAst s := by
          unfold skipWs
          exact List.takeWhile_append_dropWhile _ _
        have d3 : r1.takeWhile (fun ch => ch = '*') ++ skipAst r1 = r1 := by
          unfold skipAst
          exact List.takeWhile_append_dropWhile _ _
        have d4 : (skipAst r1).takeWhile isJsSpace ++
            skipWs (skipAst r1) = skipAst r1 := by
          unfold skipWs
          exact List.takeWhile_append_dropWhile _ _
        refine ⟨H, s.takeWhile (fun ch => ch = '*'),
          (skipAst s).takeWhile isJsSpace, hp,
          r1.takeWhile (fun ch => ch = '*'),
          (skipAst r1).takeWhile isJsSpace,
          hmem, ?_, ?_, ?_, hfold, ?_, ?_⟩
        · rw [← hsw, d4, d3, ← hs1, d2, d1]
        · intro ch hch
          simpa using List.mem_takeWhile_imp hch
        · intro ch hch
          exact List.mem_takeWhile_imp hch
        · intro ch hch
          simpa using List.mem_takeWhile_imp hch
        · intro ch hch
          exact List.mem_takeWhile_imp hch
      · rw [if_neg hdc] at h
        exact absurd h (by simp)
    · exact absurd h (by simp)
  · exact absurd h (by simp)

theorem colon_suffix_skip (p q r : List Char)
    (hp : ∀ ch ∈ p, ¬ (ch = ':'))
    (h : (':' :: r) <:+ (p ++ q)) : (':' :: r) <:+ q := by
  induction p with
  | nil => simpa using h
  | cons x t ih =>
    rw [List.cons_append] at h
    rcases List.suffix_cons_iff.mp h with h1 | h1
    · exfalso
      apply hp x (List.mem_cons_self x t)
      injection h1 with h2 h3
      exact h2.symm
    · exact ih (fun ch hch => hp ch (List.mem_cons_of_mem x hch)) h1

theorem colon_suffix_cons (q r : List Char)
    (h : (':' :: r) <:+ (':' :: q)) : r = q ∨ (':' :: r) <:+ q := by
  rcases List.suffix_cons_iff.mp h with h1 | h1
  · left
    have h2 := congrArg List.tail h1
    simpa using h2
  · right
    exact h1

theorem getLast?_of_suffix (w pfx : List Char) (hsuf : w <:+ pfx)
    (hw : ¬ (w = [])) : pfx.getLast? = w.getLast? := by
  obtain ⟨p, hp⟩ := hsuf
  rw [← hp, List.getLast?_append, List.getLast?_eq_getLast w hw]
  rfl

theorem ws_suffix_nil (w pfx : List Char)
    (hw : ∀ ch ∈ w, isJsSpace ch = true) (hsuf : w <:+ pfx)
    (hlast : ∀ ch, pfx.getLast? = some ch → isJsSpace ch = false) :
    w = [] := by
  by_cases hn : w = []
  · exact hn
  · exfalso
    have h1 := getLast?_of_suffix w pfx hsuf hn
    rw [List.getLast?_eq_getLast w hn] at h1
    have h2 := hlast (w.getLast hn) h1
    have h3 := hw (w.getLast hn) (List.getLast_mem hn)
    rw [h3] at h2
    exact absurd h2 (by simp)

theorem suffix_concat_cancel (x y : List Char) (e : Char)
    (h : (x ++ [e]) <:+ (y ++ [e])) : x <:+ y := by
  obtain ⟨p, hp⟩ := h
  rw [← List.append_assoc] at hp
  exact ⟨p, List.append_cancel_right hp⟩

theorem getLast?_replicate_succ (m : Nat) :
    (List.replicate (m + 1) '*').getLast? = some '*' := by
  rw [List.replicate_succ', List.getLast?_append]
  rfl

theorem ast_run_align (u p : List Char) (b : Nat) :
    ∀ v : List Char, (∀ ch ∈ v, ch = '*') → ¬ (u = []) →
    (∀ ch, u.getLast? = some ch → ¬ (ch = '*')) →
    (∀ ch, p.getLast? = some ch → ¬ (ch = '*')) →
    (u ++ v) <:+ (p ++ List.replicate b '*') →
    v = List.replicate b '*' ∧ u <:+ p := by
  induction b with
  | zero =>
    intro v hv hune hu hp hsuf
    rw [List.replicate_zero, List.append_nil] at hsuf
    have hvnil : v = [] := by
      by_cases hn : v = []
      · exact hn
      · exfalso
        have hs2 : v <:+ p := (List.suffix_append u v).trans hsuf
        have h1 := getLast?_of_suffix v p hs2 hn
        rw [List.getLast?_eq_getLast v hn] at h1
        exact hp _ h1 (hv _ (List.getLast_mem hn))
    subst hvnil
    rw [List.append_nil] at hsuf
    exact ⟨rfl, hsuf⟩
  | succ m ih =>
    intro v hv hune hu hp hsuf
    rcases List.eq_nil_or_concat v with hvn | ⟨v2, e, hve⟩
    · exfalso
      subst hvn
      rw [List.append_nil] at hsuf
      have h1 := getLast?_of_suffix u _ hsuf hune
      rw [List.getLast?_eq_getLast u hune, List.getLast?_append,
        getLast?_replicate_succ m] at h1
      have h2 : '*' = u.getLast hune := by
        injection h1 with h1
      exact hu _ (List.getLast?_eq_getLast u hune) h2.symm
    · subst hve
      have he : e = '*' := hv e (by simp [List.concat_eq_append])
      subst he
      rw [List.concat_eq_append, ← List.append_assoc] at hsuf
      rw [List.replicate_succ', ← List.append_assoc] at hsuf
      have hcan := suffix_concat_cancel _ _ '*' hsuf
      have hih := ih v2
        (fun ch hch => hv ch (by
          rw [List.concat_eq_append]
          exact List.mem_append.mpr (Or.inl hch)))
        hune hu hp hcan
      refine ⟨?_, hih.2⟩
      rw [List.concat_eq_append, hih.1, List.replicate_succ']

theorem align_short (x hp pp hh : List Char)
    (hsuf : (x ++ hp) <:+ (pp ++ hh)) (hlen : hp.length ≤ hh.length) :
    hp <:+ hh := by
  obtain ⟨q, hq⟩ := hsuf
  rw [← List.append_assoc] at hq
  have hsplit : pp ++ hh =
      (pp ++ hh.take (hh.length - hp.length)) ++
        hh.drop (hh.length - hp.length) := by
    rw [List.append_assoc, List.take_append_drop]
  rw [hsplit] at hq
  have hlen2 : (q ++ x).length =
      (pp ++ hh.take (hh.length - hp.length)).length := by
    have h0 := congrArg List.length hq
    simp only [List.length_append, List.length_take, List.length_drop]
      at h0 ⊢
    omega
  have hdrop := List.append_inj_right hq hlen2
  rw [hdrop]
  exact ⟨hh.take (hh.length - hp.length), List.take_append_drop _ _⟩

theorem align_long (x hp pp hh : List Char)
    (hsuf : (x ++ hp) <:+ (pp ++ hh)) (hlen : hh.length < hp.length) :
    ∃ hp1, ¬ (hp1 = []) ∧ hp1 <:+ pp ∧ hp = hp1 ++ hh := by
  obtain ⟨q, hq⟩ := hsuf
  rw [← List.append_assoc] at hq
  have hsplit : hp =
      hp.take (hp.length - hh.length) ++ hp.drop (hp.length - hh.length) :=
    (List.take_append_drop _ _).symm
  rw [hsplit, ← List.append_assoc] at hq
  have hlen2 : ((q ++ x) ++ hp.take (hp.length - hh.length)).length =
      pp.length := by
    have h0 := congrArg List.length hq
    simp only [List.length_append, List.length_take, List.length_drop]
      at h0 ⊢
    omega
  obtain ⟨hL, hR⟩ := List.append_inj hq hlen2
  refine ⟨hp.take (hp.length - hh.length), ?_, ?_, ?_⟩
  · intro hnil
    have h0 := congrArg List.length hnil
    simp only [List.length_take, List.length_nil] at h0
    omega
  · exact ⟨q ++ x, hL⟩
  · conv_lhs => rw [hsplit]
    rw [hR]

theorem foldList_suffix_of (hp hh : List Char) (h : hp <:+ hh) :
    foldList hp <:+ foldList hh := by
  obtain ⟨p, hpq⟩ := h
  refine ⟨foldList p, ?_⟩
  rw [← hpq]
  unfold foldList
  rw [List.map_append]

theorem suffix_colon_contra (X rj ro : List Char) (hX : ¬ (':' ∈ X))
    (h : (':' :: ro) <:+ (X ++ (':' :: rj)))
    (hlen : rj.length < ro.length) : False := by
  have h2 : (([] : List Char) ++ (':' :: ro)) <:+ (X ++ (':' :: rj)) := by
    rw [List.nil_append]
    exact h
  have hlen2 : (':' :: rj).length < (':' :: ro).length := by
    simp only [List.length_cons]
    omega
  obtain ⟨hp1, hne, hsuf, heq⟩ := align_long [] (':' :: ro) X (':' :: rj)
    h2 hlen2
  apply hX
  have hhd : ':' ∈ hp1 := by
    cases hp1 with
    | nil => exact absurd rfl hne
    | cons y t =>
      rw [List.cons_append] at heq
      have := congrArg List.head? heq
      simp only [List.head?_cons, Option.some.injEq] at this
      rw [this]
      exact List.mem_cons_self y t
  obtain ⟨p, hpq⟩ := hsuf
  rw [← hpq]
  exact List.mem_append.mpr (Or.inr hhd)

theorem span_at_colon (Htgt hp a w a2 w2 Y hj Hj : List Char) (b : Nat)
    (hHt : Htgt ∈ allHeaders) (hHj : Hj ∈ allHeaders)
    (hfold : foldList hp = foldList Htgt)
    (hvj : foldList hj = foldList Hj)
    (ha2 : ∀ ch ∈ a2, ch = '*') (hw2 : ∀ ch ∈ w2, isJsSpace ch = true)
    (hYlast : ∀ ch, Y.getLast? = some ch → ch = '*' ∨ ch = '\n')
    (hsuf : (a ++ (w ++ (hp ++ (a2 ++ w2)))) <:+
      (Y ++ (hj ++ List.replicate b '*'))) :
    foldList Htgt <:+ foldList Hj := by
  have hpne := variant_ne_nil hp Htgt hfold hHt
  have hplast := variant_last hp Htgt hfold hHt
  have hpspecial := variant_no_special hp Htgt hfold hHt
  have hjne := variant_ne_nil hj Hj hvj hHj
  have hjlast := variant_last hj Hj hvj hHj
  have hpfxlast : ∀ ch, (Y ++ (hj ++ List.replicate b '*')).getLast? =
      some ch → isJsSpace ch = false := by
    intro ch hch
    cases b with
    | zero =>
      rw [List.replicate_zero, List.append_nil, List.getLast?_append,
        List.getLast?_eq_getLast hj hjne] at hch
      have : ch = hj.getLast hjne := by
        have h0 : (some (hj.getLast hjne)).or Y.getLast? =
            some (hj.getLast hjne) := rfl
        rw [h0] at hch
        injection hch with h1
        exact h1.symm
      rw [this]
      exact (hjlast _ (List.getLast?_eq_getLast hj hjne)).1
    | succ m =>
      rw [List.getLast?_append, List.getLast?_append,
        getLast?_replicate_succ m] at hch
      have : ch = '*' := by
        have h0 : ((some '*').or hj.getLast?).or Y.getLast? = some '*' := rfl
        rw [h0] at hch
        injection hch with h1
        exact h1.symm
      rw [this]
      decide
  have hw2nil : w2 = [] := by
    apply ws_suffix_nil w2 _ hw2 _ hpfxlast
    calc w2 <:+ a2 ++ w2 := List.suffix_append a2 w2
      _ <:+ hp ++ (a2 ++ w2) := List.suffix_append _ _
      _ <:+ w ++ (hp ++ (a2 ++ w2)) := List.suffix_append _ _
      _ <:+ a ++ (w ++ (hp ++ (a2 ++ w2))) := List.suffix_append _ _
      _ <:+ Y ++ (hj ++ List.replicate b '*') := hsuf
  subst hw2nil
  rw [List.append_nil] at hsuf
  have hsuf2 : ((a ++ (w ++ hp)) ++ a2) <:+
      ((Y ++ hj) ++ List.replicate b '*') := by
    have e1 : (a ++ (w ++ hp)) ++ a2 = a ++ (w ++ (hp ++ a2)) := by
      simp [List.append_assoc]
    have e2 : (Y ++ hj) ++ List.replicate b '*' =
        Y ++ (hj ++ List.replicate b '*') := by
      simp [List.append_assoc]
    rw [e1, e2]
    exact hsuf
  have hune : ¬ (a ++ (w ++ hp) = []) := by
    intro h0
    rcases List.append_eq_nil.mp h0 with ⟨-, h1⟩
    rcases List.append_eq_nil.mp h1 with ⟨-, h2⟩
    exact hpne h2
  have hulast : ∀ ch, (a ++ (w ++ hp)).getLast? = some ch →
      ¬ (ch = '*') := by
    intro ch hch
    rw [List.getLast?_append, List.getLast?_append,
      List.getLast?_eq_getLast hp hpne] at hch
    have : ch = hp.getLast hpne := by
      have h0 : (((some (hp.getLast hpne)).or w.getLast?).or
          a.getLast?) = some (hp.getLast hpne) := rfl
      rw [h0] at hch
      injection hch with h1
      exact h1.symm
    rw [this]
    exact (hplast _ (List.getLast?_eq_getLast hp hpne)).2
  have hYjlast : ∀ ch, (Y ++ hj).getLast? = some ch → ¬ (ch = '*') := by
    intro ch hch
    rw [List.getLast?_append, List.getLast?_eq_getLast hj hjne] at hch
    have : ch = hj.getLast hjne := by
      have h0 : (some (hj.getLast hjne)).or Y.getLast? =
          some (hj.getLast hjne) := rfl
      rw [h0] at hch
      injection hch with h1
      exact h1.symm
    rw [this]
    exact (hjlast _ (List.getLast?_eq_getLast hj hjne)).2
  obtain ⟨ha2eq, husuf⟩ := ast_run_align (a ++ (w ++ hp)) (Y ++ hj) b a2
    ha2 hune hulast hYjlast hsuf2
  have husuf2 : ((a ++ w) ++ hp) <:+ (Y ++ hj) := by
    have e1 : (a ++ w) ++ hp = a ++ (w ++ hp) := by
      simp [List.append_assoc]
    rw [e1]
    exact husuf
  by_cases hlen : hp.length ≤ hj.length
  · have hsuffix := align_short (a ++ w) hp Y hj husuf2 hlen
    have := foldList_suffix_of hp hj hsuffix
    rw [hfold, hvj] at this
    exact this
  · exfalso
    obtain ⟨hp1, hp1ne, hp1suf, hpeq⟩ := align_long (a ++ w) hp Y hj
      husuf2 (by omega)
    have hYne : ¬ (Y = []) := by
      intro h0
      subst h0
      obtain ⟨p, hpq⟩ := hp1suf
      rcases List.append_eq_nil.mp hpq with ⟨-, h1⟩
      exact hp1ne h1
    have hl1 := getLast?_of_suffix hp1 Y hp1suf hp1ne
    rw [List.getLast?_eq_getLast hp1 hp1ne] at hl1
    have hmem : hp1.getLast hp1ne ∈ hp := by
      rw [hpeq]
      exact List.mem_append.mpr (Or.inl (List.getLast_mem hp1ne))
    obtain ⟨hna, hnn, -⟩ := hpspecial _ hmem
    rcases hYlast _ hl1 with h0 | h0
    · exact hna h0
    · exact hnn h0

theorem getLast?_append_ne (l l' : List Char) (h : ¬ (l' = [])) :
    (l ++ l').getLast? = l'.getLast? := by
  rw [List.getLast?_append, List.getLast?_eq_getLast l' h]
  rfl

theorem getLast?_nl_replicate (n : Nat) :
    ∀ ch, ('\n' :: List.replicate n '*').getLast? = some ch →
      ch = '*' ∨ ch = '\n' := by
  intro ch h
  cases n with
  | zero =>
    right
    have : (['\n'] : List Char).getLast? = some '\n' := rfl
    rw [List.replicate_zero] at h
    rw [this] at h
    injection h with h1
    exact h1.symm
  | succ m =>
    left
    have e : ('\n' :: List.replicate (m + 1) '*') =
        ('\n' :: List.replicate m '*') ++ ['*'] := by
      rw [List.replicate_succ']
      rfl
    rw [e, getLast?_append_ne _ _ (by simp)] at h
    have : (['*'] : List Char).getLast? = some '*' := rfl
    rw [this] at h
    injection h with h1
    exact h1.symm

theorem replicate_no_colon (n : Nat) :
    ∀ ch ∈ List.replicate n '*', ¬ (ch = ':') := by
  intro ch hch
  rw [List.eq_of_mem_replicate hch]
  decide

theorem suffix_cancel_colon (X P r : List Char)
    (hs : (X ++ (':' :: r)) <:+ (P ++ (':' :: r))) : X <:+ P := by
  obtain ⟨q, hq⟩ := hs
  rw [← List.append_assoc] at hq
  exact ⟨q, List.append_cancel_right hq⟩

theorem match_in_three (tgt : List (List Char))
    (a1 b1 a2 b2 a3 b3 : Nat)
    (h1 h2 h3 H1 H2 H3 c1 c2 c3 : List Char)
    (htgt : ∀ A ∈ tgt, A ∈ allHeaders)
    (hH1 : H1 ∈ allHeaders) (hH2 : H2 ∈ allHeaders)
    (hH3 : H3 ∈ allHeaders)
    (hv1 : foldList h1 = foldList H1) (hv2 : foldList h2 = foldList H2)
    (hv3 : foldList h3 = foldList H3)
    (hc1 : goodContent c1 = true) (hc2 : goodContent c2 = true)
    (hc3 : goodContent c3 = true)
    (s r : List Char)
    (hsuf : s <:+ sectionTail a1 h1 b1 c1
      ('\n' :: sectionTail a2 h2 b2 c2
        ('\n' :: sectionTail a3 h3 b3 c3 [])))
    (hmatch : afterHeaderColon tgt s = some r) :
    ∃ Htc, Htc ∈ tgt ∧
      (∃ X, s = X ++ (':' :: r) ∧ ¬ (':' ∈ X)) ∧
      ((r = ' ' :: (c1 ++ ('\n' :: sectionTail a2 h2 b2 c2
          ('\n' :: sectionTail a3 h3 b3 c3 []))) ∧
        foldList Htc <:+ foldList H1) ∨
       (r = ' ' :: (c2 ++ ('\n' :: sectionTail a3 h3 b3 c3 [])) ∧
        foldList Htc <:+ foldList H2) ∨
       (r = ' ' :: (c3 ++ []) ∧ foldList Htc <:+ foldList H3)) := by
  obtain ⟨Htc, a, w, hp, a2', w2', hmem, hseq, hma, hmw, hfold, hma2, hmw2⟩ :=
    afterHeaderColon_inv tgt s r hmatch
  have hHtc : Htc ∈ allHeaders := htgt Htc hmem
  obtain ⟨-, hc1p, -, -⟩ := goodContent_props c1 hc1
  obtain ⟨-, hc2p, -, -⟩ := goodContent_props c2 hc2
  obtain ⟨-, hc3p, -, -⟩ := goodContent_props c3 hc3
  have hXeq : s = (a ++ (w ++ (hp ++ (a2' ++ w2')))) ++ (':' :: r) := by
    rw [hseq]
    simp [List.append_assoc]
  have hXnc : ¬ (':' ∈ (a ++ (w ++ (hp ++ (a2' ++ w2'))))) := by
    intro hin
    rcases List.mem_append.mp hin with h0 | h0
    · exact absurd (hma ':' h0) (by decide)
    rcases List.mem_append.mp h0 with h0 | h0
    · have := hmw ':' h0
      exact absurd this (by decide)
    rcases List.mem_append.mp h0 with h0 | h0
    · exact (variant_no_special hp Htc hfold hHtc ':' h0).2.2 rfl
    rcases List.mem_append.mp h0 with h0 | h0
    · exact absurd (hma2 ':' h0) (by decide)
    · have := hmw2 ':' h0
      exact absurd this (by decide)
  have hcolr : (':' :: r) <:+ sectionTail a1 h1 b1 c1
      ('\n' :: sectionTail a2 h2 b2 c2
        ('\n' :: sectionTail a3 h3 b3 c3 [])) := by
    refine List.IsSuffix.trans ?_ hsuf
    rw [hXeq]
    exact List.suffix_append _ _
  -- structural equalities of the assembled text
  have E1 : sectionTail a1 h1 b1 c1
      ('\n' :: sectionTail a2 h2 b2 c2
        ('\n' :: sectionTail a3 h3 b3 c3 [])) =
      (List.replicate a1 '*' ++ (h1 ++ List.replicate b1 '*')) ++
        (':' :: (' ' :: (c1 ++ ('\n' :: sectionTail a2 h2 b2 c2
          ('\n' :: sectionTail a3 h3 b3 c3 []))))) := by
    unfold sectionTail
    simp [List.append_assoc]
  have E1b : (' ' :: (c1 ++ ('\n' :: sectionTail a2 h2 b2 c2
      ('\n' :: sectionTail a3 h3 b3 c3 [])))) =
      (' ' :: (c1 ++ ['\n'])) ++ sectionTail a2 h2 b2 c2
        ('\n' :: sectionTail a3 h3 b3 c3 []) := by
    simp [List.append_assoc]
  have E2 : sectionTail a2 h2 b2 c2
      ('\n' :: sectionTail a3 h3 b3 c3 []) =
      (List.replicate a2 '*' ++ (h2 ++ List.replicate b2 '*')) ++
        (':' :: (' ' :: (c2 ++ ('\n' :: sectionTail a3 h3 b3 c3 [])))) := by
    unfold sectionTail
    simp [List.append_assoc]
  have E2b : (' ' :: (c2 ++ ('\n' :: sectionTail a3 h3 b3 c3 []))) =
      (' ' :: (c2 ++ ['\n'])) ++ sectionTail a3 h3 b3 c3 [] := by
    simp [List.append_assoc]
  have E3 : sectionTail a3 h3 b3 c3 [] =
      (List.replicate a3 '*' ++ (h3 ++ List.replicate b3 '*')) ++
        (':' :: (' ' :: (c3 ++ []))) := by
    unfold sectionTail
    simp [List.append_assoc]
  have hP1nc : ∀ ch ∈ (List.replicate a1 '*' ++
      (h1 ++ List.replicate b1 '*')), ¬ (ch = ':') := by
    intro ch hch
    rcases List.mem_append.mp hch with h0 | h0
    · exact replicate_no_colon a1 ch h0
    rcases List.mem_append.mp h0 with h0 | h0
    · exact (variant_no_special h1 H1 hv1 hH1 ch h0).2.2
    · exact replicate_no_colon b1 ch h0
  have hP2nc : ∀ ch ∈ (List.replicate a2 '*' ++
      (h2 ++ List.replicate b2 '*')), ¬ (ch = ':') := by
    intro ch hch
    rcases List.mem_append.mp hch with h0 | h0
    · exact replicate_no_colon a2 ch h0
    rcases List.mem_append.mp h0 with h0 | h0
    · exact (variant_no_special h2 H2 hv2 hH2 ch h0).2.2
    · exact replicate_no_colon b2 ch h0
  have hP3nc : ∀ ch ∈ (List.replicate a3 '*' ++
      (h3 ++ List.replicate b3 '*')), ¬ (ch = ':') := by
    intro ch hch
    rcases List.mem_append.mp hch with h0 | h0
    · exact replicate_no_colon a3 ch h0
    rcases List.mem_append.mp h0 with h0 | h0
    · exact (variant_no_special h3 H3 hv3 hH3 ch h0).2.2
    · exact replicate_no_colon b3 ch h0
  have hP1bnc : ∀ ch ∈ (' ' :: (c1 ++ ['\n'])), ¬ (ch = ':') := by
    intro ch hch
    rcases List.mem_cons.mp hch with h0 | h0
    · rw [h0]; decide
    rcases List.mem_append.mp h0 with h0 | h0
    · exact (hc1p ch h0).2.2
    · rw [List.mem_singleton.mp h0]; decide
  have hP2bnc : ∀ ch ∈ (' ' :: (c2 ++ ['\n'])), ¬ (ch = ':') := by
    intro ch hch
    rcases List.mem_cons.mp hch with h0 | h0
    · rw [h0]; decide
    rcases List.mem_append.mp h0 with h0 | h0
    · exact (hc2p ch h0).2.2
    · rw [List.mem_singleton.mp h0]; decide
  rw [E1] at hcolr
  have step1 := colon_suffix_skip _ _ r hP1nc hcolr
  rcases colon_suffix_cons _ r step1 with hr1 | hnext1
  · -- the match ends at the first section colon
    refine ⟨Htc, hmem, ⟨_, hXeq, hXnc⟩, Or.inl ⟨hr1, ?_⟩⟩
    have hsX2 : (a ++ (w ++ (hp ++ (a2' ++ w2')))) <:+
        (List.replicate a1 '*' ++ (h1 ++ List.replicate b1 '*')) := by
      apply suffix_cancel_colon _ _ r
      rw [← hXeq, hr1, ← E1]
      exact hsuf
    exact span_at_colon Htc hp a w a2' w2' (List.replicate a1 '*') h1 H1
      b1 hHtc hH1 hfold hv1 hma2 hmw2
      (fun ch hch => by
        cases a1 with
        | zero =>
          rw [List.replicate_zero] at hch
          simp at hch
        | succ m =>
          rw [getLast?_replicate_succ m] at hch
          injection hch with h0
          exact Or.inl h0.symm)
      hsX2
  · rw [E1b] at hnext1
    have step2 := colon_suffix_skip _ _ r hP1bnc hnext1
    rw [E2] at step2
    have step2b := colon_suffix_skip _ _ r hP2nc step2
    rcases colon_suffix_cons _ r step2b with hr2 | hnext2
    · -- ends at the second section colon
      refine ⟨Htc, hmem, ⟨_, hXeq, hXnc⟩, Or.inr (Or.inl ⟨hr2, ?_⟩)⟩
      have Etext : sectionTail a1 h1 b1 c1
          ('\n' :: sectionTail a2 h2 b2 c2
            ('\n' :: sectionTail a3 h3 b3 c3 [])) =
          ((List.replicate a1 '*' ++ (h1 ++ (List.replicate b1 '*' ++
            (':' :: ' ' :: (c1 ++ ('\n' :: List.replicate a2 '*')))))) ++
            (h2 ++ List.replicate b2 '*')) ++
            (':' :: (' ' :: (c2 ++ ('\n' :: sectionTail a3 h3 b3 c3
              [])))) := by
        unfold sectionTail
        simp [List.append_assoc]
      have hsX : (a ++ (w ++ (hp ++ (a2' ++ w2')))) <:+
          ((List.replicate a1 '*' ++ (h1 ++ (List.replicate b1 '*' ++
            (':' :: ' ' :: (c1 ++ ('\n' :: List.replicate a2 '*')))))) ++
            (h2 ++ List.replicate b2 '*')) := by
        apply suffix_cancel_colon _ _ r
        rw [← hXeq, hr2, ← Etext]
        exact hsuf
      refine span_at_colon Htc hp a w a2' w2'
        (List.replicate a1 '*' ++ (h1 ++ (List.replicate b1 '*' ++
          (':' :: ' ' :: (c1 ++ ('\n' :: List.replicate a2 '*'))))))
        h2 H2 b2 hHtc hH2 hfold hv2 hma2 hmw2 ?_ hsX
      intro ch hch
      have eY : (List.replicate a1 '*' ++ (h1 ++ (List.replicate b1 '*' ++
          (':' :: ' ' :: (c1 ++ ('\n' :: List.replicate a2 '*')))))) =
          (List.replicate a1 '*' ++ (h1 ++ (List.replicate b1 '*' ++
            (':' :: ' ' :: c1)))) ++ ('\n' :: List.replicate a2 '*') := by
        simp [List.append_assoc]
      rw [eY, getLast?_append_ne _ _ (by simp)] at hch
      exact getLast?_nl_replicate a2 ch hch
    · rw [E2b] at hnext2
      have step3 := colon_suffix_skip _ _ r hP2bnc hnext2
      rw [E3] at step3
      have step3b := colon_suffix_skip _ _ r hP3nc step3
      rcases colon_suffix_cons _ r step3b with hr3 | hnext3
      · -- ends at the third section colon
        refine ⟨Htc, hmem, ⟨_, hXeq, hXnc⟩, Or.inr (Or.inr ⟨hr3, ?_⟩)⟩
        have Etext : sectionTail a1 h1 b1 c1
            ('\n' :: sectionTail a2 h2 b2 c2
              ('\n' :: sectionTail a3 h3 b3 c3 [])) =
            ((List.replicate a1 '*' ++ (h1 ++ (List.replicate b1 '*' ++
              (':' :: ' ' :: (c1 ++ ('\n' :: (List.replicate a2 '*' ++
                (h2 ++ (List.replicate b2 '*' ++ (':' :: ' ' ::
                  (c2 ++ ('\n' :: List.replicate a3 '*')))))))))))) ++
              (h3 ++ List.replicate b3 '*')) ++
              (':' :: (' ' :: (c3 ++ []))) := by
          unfold sectionTail
          simp [List.append_assoc]
        have hsX : (a ++ (w ++ (hp ++ (a2' ++ w2')))) <:+
            ((List.replicate a1 '*' ++ (h1 ++ (List.replicate b1 '*' ++
              (':' :: ' ' :: (c1 ++ ('\n' :: (List.replicate a2 '*' ++
                (h2 ++ (List.replicate b2 '*' ++ (':' :: ' ' ::
                  (c2 ++ ('\n' :: List.replicate a3 '*')))))))))))) ++
              (h3 ++ List.replicate b3 '*')) := by
          apply suffix_cancel_colon _ _ r
          rw [← hXeq, hr3, ← Etext]
          exact hsuf
        refine span_at_colon Htc hp a w a2' w2'
          (List.replicate a1 '*' ++ (h1 ++ (List.replicate b1 '*' ++
            (':' :: ' ' :: (c1 ++ ('\n' :: (List.replicate a2 '*' ++
              (h2 ++ (List.replicate b2 '*' ++ (':' :: ' ' ::
                (c2 ++ ('\n' :: List.replicate a3 '*')))))))))))) h3 H3 b3
          hHtc hH3 hfold hv3 hma2 hmw2 ?_ hsX
        intro ch hch
        have eY : (List.replicate a1 '*' ++ (h1 ++ (List.replicate b1 '*' ++
            (':' :: ' ' :: (c1 ++ ('\n' :: (List.replicate a2 '*' ++
              (h2 ++ (List.replicate b2 '*' ++ (':' :: ' ' ::
                (c2 ++ ('\n' :: List.replicate a3 '*')))))))))))) =
            (List.replicate a1 '*' ++ (h1 ++ (List.replicate b1 '*' ++
              (':' :: ' ' :: (c1 ++ ('\n' :: (List.replicate a2 '*' ++
                (h2 ++ (List.replicate b2 '*' ++ (':' :: ' ' ::
                  c2)))))))))) ++ ('\n' :: List.replicate a3 '*') := by
          simp [List.append_assoc]
        rw [eY, getLast?_append_ne _ _ (by simp)] at hch
        exact getLast?_nl_replicate a3 ch hch
      · -- no colon remains: contradiction
        exfalso
        have hlast : (':' :: r) <:+ ((' ' :: c3) ++ []) := by
          have e : (' ' :: (c3 ++ [])) = (' ' :: c3) ++ [] := by simp
          rw [e] at hnext3
          exact hnext3
        have := colon_suffix_skip (' ' :: c3) [] r
          (by
            intro ch hch
            rcases List.mem_cons.mp hch with h0 | h0
            · rw [h0]; decide
            · exact (hc3p ch h0).2.2)
          hlast
        obtain ⟨q, hq⟩ := this
        exact absurd hq (by simp)

theorem afterHeaderColon_nil (hs : List (List Char)) :
    afterHeaderColon hs [] = none := by
  unfold afterHeaderColon
  rw [skipAst_nil, skipWs_nil]
  cases hm : matchAnyHeader hs [] with
  | none => rfl
  | some r =>
    obtain ⟨H, hmem, hone⟩ := matchAnyHeader_some hs [] r hm
    unfold matchOneHeader at hone
    split at hone
    · injection hone with hone
      rw [← hone, List.drop_nil]
      rfl
    · exact absurd hone (by simp)

theorem findSection_first (hs lhs : List (List Char)) (r0 : List Char) :
    ∀ text : List Char,
      (∃ s1, s1 <:+ text ∧ (':' :: r0) <:+ s1 ∧
        ¬ (afterHeaderColon hs s1 = none)) →
      (∀ s1 r1, s1 <:+ text → (':' :: r0) <:+ s1 →
        afterHeaderColon hs s1 = some r1 → r1 = r0) →
      findSection hs lhs text = some (captureContent lhs (skipWs r0)) := by
  intro text
  induction text with
  | nil =>
    intro hex _
    obtain ⟨s1, hsub, hcol, hne⟩ := hex
    obtain ⟨q, hq⟩ := hsub
    have hs1 : s1 = [] := by
      rcases List.append_eq_nil.mp hq with ⟨-, h⟩
      exact h
    rw [hs1, afterHeaderColon_nil] at hne
    exact absurd rfl hne
  | cons c t ih =>
    intro hex hall
    cases hA : afterHeaderColon hs (c :: t) with
    | some after =>
      obtain ⟨s1, hsub, hcol, -⟩ := hex
      have hcol2 : (':' :: r0) <:+ (c :: t) := hcol.trans hsub
      have hr := hall (c :: t) after (List.suffix_refl _) hcol2 hA
      unfold findSection
      rw [hA, hr]
    | none =>
      obtain ⟨s1, hsub, hcol, hne⟩ := hex
      have hst : s1 <:+ t := by
        rcases List.suffix_cons_iff.mp hsub with h1 | h1
        · exfalso
          rw [h1] at hne
          exact hne hA
        · exact h1
      have hrec := ih ⟨s1, hst, hcol, hne⟩
        (fun s2 r2 hs2 hc2 hA2 =>
          hall s2 r2 (hs2.trans (List.suffix_cons c t)) hc2 hA2)
      unfold findSection
      rw [hA, hrec]

theorem head_of_fold2 (h H : List Char) (hv : foldList h = foldList H)
    (hne : ¬ (H = [])) :
    ∃ c0 t0, h = c0 :: t0 ∧ (foldList H).head? = some (caseFold c0) := by
  cases h with
  | nil =>
    exfalso
    apply hne
    cases hc : H with
    | nil => rfl
    | cons x t =>
      rw [hc] at hv
      exact absurd hv (by simp [foldList])
  | cons c0 t0 =>
    refine ⟨c0, t0, rfl, ?_⟩
    rw [← hv]
    rfl

theorem matchOneHeader_none_allHeaders (A Hk : List Char)
    (hA : A ∈ allHeaders) (hHk : Hk ∈ allHeaders) (hne : ¬ (A = Hk))
    (h' X : List Char) (hv : foldList h' = foldList Hk) :
    matchOneHeader A (h' ++ X) = none := by
  rcases mem_allHeaders_cases A hA with hA1 | hA1 | hA1 | hA1 | hA1 | hA1 <;>
  rcases mem_allHeaders_cases Hk hHk with
    hK1 | hK1 | hK1 | hK1 | hK1 | hK1 <;>
  subst hA1 <;> subst hK1 <;>
  first
    | exact absurd rfl hne
    | (obtain ⟨c0, t0, hh, hc0⟩ := head_of_fold2 h' _ hv (by decide)
       refine matchOneHeader_none_head _ _ c0 _ rfl (by rw [hh]; rfl) ?_
       intro hcf
       rw [hcf] at hc0
       exact absurd hc0 (by decide))

theorem matchAnyHeader_allHeaders_sub (grp : List (List Char))
    (Hk h' X : List Char)
    (hgrp : ∀ A ∈ grp, A ∈ allHeaders) (hHk : Hk ∈ allHeaders)
    (hmem : Hk ∈ grp) (hv : foldList h' = foldList Hk) :
    matchAnyHeader grp (h' ++ X) = some X :=
  matchAnyHeader_of_fold grp Hk h' X hmem hv
    (fun A hA hne =>
      matchOneHeader_none_allHeaders A Hk (hgrp A hA) hHk hne h' X hv)

theorem lookaheadOf_sub (cur : List (List Char)) :
    ∀ A ∈ lookaheadOf cur, A ∈ allHeaders := by
  intro A hA
  exact (List.mem_filter.mp hA).1

theorem skipWs_cons_content (c X : List Char)
    (hhd : ∀ ch, c.head? = some ch → isJsSpace ch = false)
    (hne : ¬ (c = [])) :
    skipWs (' ' :: (c ++ X)) = c ++ X := by
  rw [skipWs_cons_ws ' ' _ (by decide)]
  apply skipWs_of_head
  intro d hd
  cases c with
  | nil => exact absurd rfl hne
  | cons y t =>
    rw [List.cons_append, List.head?_cons] at hd
    injection hd with hd
    exact hd ▸ hhd y rfl

/-- Three assembled sections separated by newlines:
`***H1***: c1\n***H2***: c2\n***H3***: c3`. -/
def threeSecText (a1 : Nat) (h1 : List Char) (b1 : Nat) (c1 : List Char)
    (a2 : Nat) (h2 : List Char) (b2 : Nat) (c2 : List Char)
    (a3 : Nat) (h3 : List Char) (b3 : Nat) (c3 : List Char) : List Char :=
  sectionTail a1 h1 b1 c1 ('\n' :: sectionTail a2 h2 b2 c2
    ('\n' :: sectionTail a3 h3 b3 c3 []))

theorem getSection_first (tgt : List (List Char))
    (a1 b1 a2 b2 a3 b3 : Nat)
    (h1 h2 h3 H1 H2 H3 c1 c2 c3 : List Char)
    (htgt : ∀ A ∈ tgt, A ∈ allHeaders)
    (hH1 : H1 ∈ allHeaders) (hH2 : H2 ∈ allHeaders)
    (hH3 : H3 ∈ allHeaders)
    (hown : H1 ∈ tgt) (hnext : H2 ∈ lookaheadOf tgt)
    (hv1 : foldList h1 = foldList H1)
    (hv2 : foldList h2 = foldList H2)
    (hv3 : foldList h3 = foldList H3)
    (hc1 : goodContent c1 = true) (hc2 : goodContent c2 = true)
    (hc3 : goodContent c3 = true) :
    getSectionContent tgt
      (threeSecText a1 h1 b1 c1 a2 h2 b2 c2 a3 h3 b3 c3) = c1 := by
  obtain ⟨hne1, hch1, hhd1, hlt1⟩ := goodContent_props c1 hc1
  have hne1' := variant_ne_nil h1 H1 hv1 hH1
  have hhead1 := variant_head h1 H1 hv1 hH1
  have hne2' := variant_ne_nil h2 H2 hv2 hH2
  have hhead2 := variant_head h2 H2 hv2 hH2
  have hmatch1 : matchAnyHeader tgt
      (h1 ++ (List.replicate b1 '*' ++ (':' :: ' ' :: (c1 ++
        ('\n' :: sectionTail a2 h2 b2 c2
          ('\n' :: sectionTail a3 h3 b3 c3 [])))))) =
      some (List.replicate b1 '*' ++ (':' :: ' ' :: (c1 ++
        ('\n' :: sectionTail a2 h2 b2 c2
          ('\n' :: sectionTail a3 h3 b3 c3 []))))) :=
    matchAnyHeader_allHeaders_sub tgt H1 h1 _ htgt hH1 hown hv1
  have ownA : afterHeaderColon tgt
      (sectionTail a1 h1 b1 c1 ('\n' :: sectionTail a2 h2 b2 c2
        ('\n' :: sectionTail a3 h3 b3 c3 []))) =
      some (' ' :: (c1 ++ ('\n' :: sectionTail a2 h2 b2 c2
        ('\n' :: sectionTail a3 h3 b3 c3 [])))) :=
    afterHeaderColon_sectionTail tgt a1 b1 h1 c1 _ hne1' hhead1 hmatch1
  have E1 : sectionTail a1 h1 b1 c1 ('\n' :: sectionTail a2 h2 b2 c2
      ('\n' :: sectionTail a3 h3 b3 c3 [])) =
      (List.replicate a1 '*' ++ (h1 ++ List.replicate b1 '*')) ++
        (':' :: (' ' :: (c1 ++ ('\n' :: sectionTail a2 h2 b2 c2
          ('\n' :: sectionTail a3 h3 b3 c3 []))))) := by
    unfold sectionTail
    simp [List.append_assoc]
  have hex : ∃ s1, s1 <:+ sectionTail a1 h1 b1 c1
      ('\n' :: sectionTail a2 h2 b2 c2
        ('\n' :: sectionTail a3 h3 b3 c3 [])) ∧
      ((':' :: (' ' :: (c1 ++ ('\n' :: sectionTail a2 h2 b2 c2
        ('\n' :: sectionTail a3 h3 b3 c3 []))))) <:+ s1) ∧
      ¬ (afterHeaderColon tgt s1 = none) := by
    refine ⟨_, List.suffix_refl _, ⟨_, E1.symm⟩, ?_⟩
    rw [ownA]
    simp
  have hall : ∀ s1 r1, s1 <:+ sectionTail a1 h1 b1 c1
      ('\n' :: sectionTail a2 h2 b2 c2
        ('\n' :: sectionTail a3 h3 b3 c3 [])) →
      ((':' :: (' ' :: (c1 ++ ('\n' :: sectionTail a2 h2 b2 c2
        ('\n' :: sectionTail a3 h3 b3 c3 []))))) <:+ s1) →
      afterHeaderColon tgt s1 = some r1 →
      r1 = ' ' :: (c1 ++ ('\n' :: sectionTail a2 h2 b2 c2
        ('\n' :: sectionTail a3 h3 b3 c3 []))) := by
    intro s1 r1 hsub hcol hA
    obtain ⟨Htc, hmemT, ⟨X, hXe, hXnc⟩, hdisj⟩ :=
      match_in_three tgt a1 b1 a2 b2 a3 b3 h1 h2 h3 H1 H2 H3 c1 c2 c3
        htgt hH1 hH2 hH3 hv1 hv2 hv3 hc1 hc2 hc3 s1 r1 hsub hA
    rcases hdisj with ⟨hr, -⟩ | ⟨hr, -⟩ | ⟨hr, -⟩
    · exact hr
    · exfalso
      rw [hXe] at hcol
      refine suffix_colon_contra X r1 _ hXnc hcol ?_
      rw [hr]
      simp only [sectionTail, List.length_cons, List.length_append,
        List.length_replicate]
      omega
    · exfalso
      rw [hXe] at hcol
      refine suffix_colon_contra X r1 _ hXnc hcol ?_
      rw [hr]
      simp only [sectionTail, List.length_cons, List.length_append,
        List.length_replicate]
      omega
  have hmatch2 : matchAnyHeader (lookaheadOf tgt)
      (h2 ++ (List.replicate b2 '*' ++ (':' :: ' ' :: (c2 ++
        ('\n' :: sectionTail a3 h3 b3 c3 []))))) =
      some (List.replicate b2 '*' ++ (':' :: ' ' :: (c2 ++
        ('\n' :: sectionTail a3 h3 b3 c3 [])))) :=
    matchAnyHeader_allHeaders_sub (lookaheadOf tgt) H2 h2 _
      (lookaheadOf_sub tgt) hH2 hnext hv2
  unfold threeSecText getSectionContent
  rw [findSection_first tgt (lookaheadOf tgt)
    (' ' :: (c1 ++ ('\n' :: sectionTail a2 h2 b2 c2
      ('\n' :: sectionTail a3 h3 b3 c3 [])))) _ hex hall]
  dsimp only []
  rw [skipWs_cons_content c1 _ hhd1 hne1]
  rw [captureContent_append (lookaheadOf tgt) c1 _
    (fun ch hch => (hch1 ch hch).1)
    (Or.inr (lookaheadHere_sectionTail (lookaheadOf tgt) a2 b2 h2 c2 _
      hne2' hhead2 hmatch2))]
  exact cleanStr_eq_self c1 (fun ch hch => (hch1 ch hch).2.1) hhd1 hlt1

theorem getSection_second (tgt : List (List Char))
    (a1 b1 a2 b2 a3 b3 : Nat)
    (h1 h2 h3 H1 H2 H3 c1 c2 c3 : List Char)
    (htgt : ∀ A ∈ tgt, A ∈ allHeaders)
    (hH1 : H1 ∈ allHeaders) (hH2 : H2 ∈ allHeaders)
    (hH3 : H3 ∈ allHeaders)
    (hown : H2 ∈ tgt) (hnext : H3 ∈ lookaheadOf tgt)
    (hexcl1 : ∀ A ∈ tgt, ¬ (foldList A <:+ foldList H1))
    (hv1 : foldList h1 = foldList H1)
    (hv2 : foldList h2 = foldList H2)
    (hv3 : foldList h3 = foldList H3)
    (hc1 : goodContent c1 = true) (hc2 : goodContent c2 = true)
    (hc3 : goodContent c3 = true) :
    getSectionContent tgt
      (threeSecText a1 h1 b1 c1 a2 h2 b2 c2 a3 h3 b3 c3) = c2 := by
  obtain ⟨hne2, hch2, hhd2, hlt2⟩ := goodContent_props c2 hc2
  have hne2' := variant_ne_nil h2 H2 hv2 hH2
  have hhead2 := variant_head h2 H2 hv2 hH2
  have hne3' := variant_ne_nil h3 H3 hv3 hH3
  have hhead3 := variant_head h3 H3 hv3 hH3
  have hmatch2 : matchAnyHeader tgt
      (h2 ++ (List.replicate b2 '*' ++ (':' :: ' ' :: (c2 ++
        ('\n' :: sectionTail a3 h3 b3 c3 []))))) =
      some (List.replicate b2 '*' ++ (':' :: ' ' :: (c2 ++
        ('\n' :: sectionTail a3 h3 b3 c3 [])))) :=
    matchAnyHeader_allHeaders_sub tgt H2 h2 _ htgt hH2 hown hv2
  have ownA : afterHeaderColon tgt
      (sectionTail a2 h2 b2 c2 ('\n' :: sectionTail a3 h3 b3 c3 [])) =
      some (' ' :: (c2 ++ ('\n' :: sectionTail a3 h3 b3 c3 []))) :=
    afterHeaderColon_sectionTail tgt a2 b2 h2 c2 _ hne2' hhead2 hmatch2
  have Esuf : sectionTail a1 h1 b1 c1 ('\n' :: sectionTail a2 h2 b2 c2
      ('\n' :: sectionTail a3 h3 b3 c3 [])) =
      (List.replicate a1 '*' ++ (h1 ++ (List.replicate b1 '*' ++
        (':' :: ' ' :: (c1 ++ ['\n']))))) ++
        sectionTail a2 h2 b2 c2 ('\n' :: sectionTail a3 h3 b3 c3 []) := by
    unfold sectionTail
    simp [List.append_assoc]
  have E2 : sectionTail a2 h2 b2 c2 ('\n' :: sectionTail a3 h3 b3 c3 []) =
      (List.replicate a2 '*' ++ (h2 ++ List.replicate b2 '*')) ++
        (':' :: (' ' :: (c2 ++ ('\n' :: sectionTail a3 h3 b3 c3 [])))) := by
    unfold sectionTail
    simp [List.append_assoc]
  have hex : ∃ s1, s1 <:+ sectionTail a1 h1 b1 c1
      ('\n' :: sectionTail a2 h2 b2 c2
        ('\n' :: sectionTail a3 h3 b3 c3 [])) ∧
      ((':' :: (' ' :: (c2 ++ ('\n' :: sectionTail a3 h3 b3 c3 []))))
        <:+ s1) ∧
      ¬ (afterHeaderColon tgt s1 = none) := by
    refine ⟨sectionTail a2 h2 b2 c2 ('\n' :: sectionTail a3 h3 b3 c3 []),
      ⟨_, Esuf.symm⟩, ⟨_, E2.symm⟩, ?_⟩
    rw [ownA]
    simp
  have hall : ∀ s1 r1, s1 <:+ sectionTail a1 h1 b1 c1
      ('\n' :: sectionTail a2 h2 b2 c2
        ('\n' :: sectionTail a3 h3 b3 c3 [])) →
      ((':' :: (' ' :: (c2 ++ ('\n' :: sectionTail a3 h3 b3 c3 []))))
        <:+ s1) →
      afterHeaderColon tgt s1 = some r1 →
      r1 = ' ' :: (c2 ++ ('\n' :: sectionTail a3 h3 b3 c3 [])) := by
    intro s1 r1 hsub hcol hA
    obtain ⟨Htc, hmemT, ⟨X, hXe, hXnc⟩, hdisj⟩ :=
      match_in_three tgt a1 b1 a2 b2 a3 b3 h1 h2 h3 H1 H2 H3 c1 c2 c3
        htgt hH1 hH2 hH3 hv1 hv2 hv3 hc1 hc2 hc3 s1 r1 hsub hA
    rcases hdisj with ⟨hr, hf⟩ | ⟨hr, -⟩ | ⟨hr, -⟩
    · exact absurd hf (hexcl1 Htc hmemT)
    · exact hr
    · exfalso
      rw [hXe] at hcol
      refine suffix_colon_contra X r1 _ hXnc hcol ?_
      rw [hr]
      simp only [sectionTail, List.length_cons, List.length_append,
        List.length_replicate]
      omega
  have hmatch3 : matchAnyHeader (lookaheadOf tgt)
      (h3 ++ (List.replicate b3 '*' ++ (':' :: ' ' :: (c3 ++ [])))) =
      some (List.replicate b3 '*' ++ (':' :: ' ' :: (c3 ++ []))) :=
    matchAnyHeader_allHeaders_sub (lookaheadOf tgt) H3 h3 _
      (lookaheadOf_sub tgt) hH3 hnext hv3
  unfold threeSecText getSectionContent
  rw [findSection_first tgt (lookaheadOf tgt)
    (' ' :: (c2 ++ ('\n' :: sectionTail a3 h3 b3 c3 []))) _ hex hall]
  dsimp only []
  rw [skipWs_cons_content c2 _ hhd2 hne2]
  rw [captureContent_append (lookaheadOf tgt) c2 _
    (fun ch hch => (hch2 ch hch).1)
    (Or.inr (lookaheadHere_sectionTail (lookaheadOf tgt) a3 b3 h3 c3 _
      hne3' hhead3 hmatch3))]
  exact cleanStr_eq_self c2 (fun ch hch => (hch2 ch hch).2.1) hhd2 hlt2

theorem getSection_third (tgt : List (List Char))
    (a1 b1 a2 b2 a3 b3 : Nat)
    (h1 h2 h3 H1 H2 H3 c1 c2 c3 : List Char)
    (htgt : ∀ A ∈ tgt, A ∈ allHeaders)
    (hH1 : H1 ∈ allHeaders) (hH2 : H2 ∈ allHeaders)
    (hH3 : H3 ∈ allHeaders)
    (hown : H3 ∈ tgt)
    (hexcl1 : ∀ A ∈ tgt, ¬ (foldList A <:+ foldList H1))
    (hexcl2 : ∀ A ∈ tgt, ¬ (foldList A <:+ foldList H2))
    (hv1 : foldList h1 = foldList H1)
    (hv2 : foldList h2 = foldList H2)
    (hv3 : foldList h3 = foldList H3)
    (hc1 : goodContent c1 = true) (hc2 : goodContent c2 = true)
    (hc3 : goodContent c3 = true) :
    getSectionContent tgt
      (threeSecText a1 h1 b1 c1 a2 h2 b2 c2 a3 h3 b3 c3) = c3 := by
  obtain ⟨hne3, hch3, hhd3, hlt3⟩ := goodContent_props c3 hc3
  have hne3' := variant_ne_nil h3 H3 hv3 hH3
  have hhead3 := variant_head h3 H3 hv3 hH3
  have hmatch3 : matchAnyHeader tgt
      (h3 ++ (List.replicate b3 '*' ++ (':' :: ' ' :: (c3 ++ [])))) =
      some (List.replicate b3 '*' ++ (':' :: ' ' :: (c3 ++ []))) :=
    matchAnyHeader_allHeaders_sub tgt H3 h3 _ htgt hH3 hown hv3
  have ownA : afterHeaderColon tgt (sectionTail a3 h3 b3 c3 []) =
      some (' ' :: (c3 ++ [])) :=
    afterHeaderColon_sectionTail tgt a3 b3 h3 c3 _ hne3' hhead3 hmatch3
  have Esuf : sectionTail a1 h1 b1 c1 ('\n' :: sectionTail a2 h2 b2 c2
      ('\n' :: sectionTail a3 h3 b3 c3 [])) =
      (List.replicate a1 '*' ++ (h1 ++ (List.replicate b1 '*' ++
        (':' :: ' ' :: (c1 ++ ('\n' :: (List.replicate a2 '*' ++
          (h2 ++ (List.replicate b2 '*' ++ (':' :: ' ' ::
            (c2 ++ ['\n'])))))))))))  ++
        sectionTail a3 h3 b3 c3 [] := by
    unfold sectionTail
    simp [List.append_assoc]
  have E3 : sectionTail a3 h3 b3 c3 [] =
      (List.replicate a3 '*' ++ (h3 ++ List.replicate b3 '*')) ++
        (':' :: (' ' :: (c3 ++ []))) := by
    unfold sectionTail
    simp [List.append_assoc]
  have hex : ∃ s1, s1 <:+ sectionTail a1 h1 b1 c1
      ('\n' :: sectionTail a2 h2 b2 c2
        ('\n' :: sectionTail a3 h3 b3 c3 [])) ∧
      ((':' :: (' ' :: (c3 ++ []))) <:+ s1) ∧
      ¬ (afterHeaderColon tgt s1 = none) := by
    refine ⟨sectionTail a3 h3 b3 c3 [],
      ⟨_, Esuf.symm⟩, ⟨_, E3.symm⟩, ?_⟩
    rw [ownA]
    simp
  have hall : ∀ s1 r1, s1 <:+ sectionTail a1 h1 b1 c1
      ('\n' :: sectionTail a2 h2 b2 c2
        ('\n' :: sectionTail a3 h3 b3 c3 [])) →
      ((':' :: (' ' :: (c3 ++ []))) <:+ s1) →
      afterHeaderColon tgt s1 = some r1 →
      r1 = ' ' :: (c3 ++ []) := by
    intro s1 r1 hsub hcol hA
    obtain ⟨Htc, hmemT, ⟨X, hXe, hXnc⟩, hdisj⟩ :=
      match_in_three tgt a1 b1 a2 b2 a3 b3 h1 h2 h3 H1 H2 H3 c1 c2 c3
        htgt hH1 hH2 hH3 hv1 hv2 hv3 hc1 hc2 hc3 s1 r1 hsub hA
    rcases hdisj with ⟨hr, hf⟩ | ⟨hr, hf⟩ | ⟨hr, -⟩
    · exact absurd hf (hexcl1 Htc hmemT)
    · exact absurd hf (hexcl2 Htc hmemT)
    · exact hr
  unfold threeSecText getSectionContent
  rw [findSection_first tgt (lookaheadOf tgt)
    (' ' :: (c3 ++ [])) _ hex hall]
  dsimp only []
  rw [skipWs_cons_content c3 _ hhd3 hne3]
  rw [captureContent_append (lookaheadOf tgt) c3 [] 
    (fun ch hch => (hch3 ch hch).1) (Or.inl rfl)]
  exact cleanStr_eq_self c3 (fun ch hch => (hch3 ch hch).2.1) hhd3 hlt3

theorem threeSecText_ne_nil (a1 b1 a2 b2 a3 b3 : Nat)
    (h1 h2 h3 c1 c2 c3 : List Char) (hne : ¬ (h1 = [])) :
    ¬ (threeSecText a1 h1 b1 c1 a2 h2 b2 c2 a3 h3 b3 c3 = []) := by
  intro he
  have hlen := congrArg List.length he
  simp only [threeSecText, sectionTail, List.length_append,
    List.length_cons, List.length_replicate, List.length_nil] at hlen
  have hl : 0 < h1.length := List.length_pos.mpr hne
  omega

/-- A full assembled response in the order title, localized title,
keywords: the parser extracts exactly the three contents. -/
theorem parseSeo_TRK (a1 b1 a2 b2 a3 b3 : Nat)
    (hT hR hK cT cR cK HT HR HK : List Char)
    (hHT : HT = hdrZagolovok ∨ HT = hdrTitle)
    (hHR : HR = hdrRusTitle ∨ HR = hdrRusZagolovok)
    (hHK : HK = hdrKlyuch ∨ HK = hdrKeywords)
    (hvT : foldList hT = foldList HT)
    (hvR : foldList hR = foldList HR)
    (hvK : foldList hK = foldList HK)
    (hcT : goodContent cT = true) (hcR : goodContent cR = true)
    (hcK : goodContent cK = true) :
    parseSeoResponse (threeSecText a1 hT b1 cT a2 hR b2 cR a3 hK b3 cK) =
      ⟨cT, cR, cK⟩ := by
  have hHTall : HT ∈ allHeaders := by
    rcases hHT with h | h <;> subst h <;> decide
  have hHRall : HR ∈ allHeaders := by
    rcases hHR with h | h <;> subst h <;> decide
  have hHKall : HK ∈ allHeaders := by
    rcases hHK with h | h <;> subst h <;> decide
  have htitle : getSectionContent titleCur
      (threeSecText a1 hT b1 cT a2 hR b2 cR a3 hK b3 cK) = cT :=
    getSection_first titleCur a1 b1 a2 b2 a3 b3 hT hR hK HT HR HK
      cT cR cK (by decide) hHTall hHRall hHKall
      (by rcases hHT with h | h <;> subst h <;> decide)
      (by rcases hHR with h | h <;> subst h <;> decide)
      hvT hvR hvK hcT hcR hcK
  have hrus : getSectionContent russianCur
      (threeSecText a1 hT b1 cT a2 hR b2 cR a3 hK b3 cK) = cR :=
    getSection_second russianCur a1 b1 a2 b2 a3 b3 hT hR hK HT HR HK
      cT cR cK (by decide) hHTall hHRall hHKall
      (by rcases hHR with h | h <;> subst h <;> decide)
      (by rcases hHK with h | h <;> subst h <;> decide)
      (by
        intro A hA
        have hA2 : A = hdrRusTitle ∨ A = hdrRusZagolovok := by
          simpa [russianCur] using hA
        rcases hA2 with h1 | h1 <;> rcases hHT with h2 | h2 <;>
          subst h1 <;> subst h2 <;> decide)
      hvT hvR hvK hcT hcR hcK
  have hkw : getSectionContent keywordsCur
      (threeSecText a1 hT b1 cT a2 hR b2 cR a3 hK b3 cK) = cK :=
    getSection_third keywordsCur a1 b1 a2 b2 a3 b3 hT hR hK HT HR HK
      cT cR cK (by decide) hHTall hHRall hHKall
      (by rcases hHK with h | h <;> subst h <;> decide)
      (by
        intro A hA
        have hA2 : A = hdrKlyuch ∨ A = hdrKeywords := by
          simpa [keywordsCur] using hA
        rcases hA2 with h1 | h1 <;> rcases hHT with h2 | h2 <;>
          subst h1 <;> subst h2 <;> decide)
      (by
        intro A hA
        have hA2 : A = hdrKlyuch ∨ A = hdrKeywords := by
          simpa [keywordsCur] using hA
        rcases hA2 with h1 | h1 <;> rcases hHR with h2 | h2 <;>
          subst h1 <;> subst h2 <;> decide)
      hvT hvR hvK hcT hcR hcK
  have hneT : ¬ (cT = []) := (goodContent_props cT hcT).1
  unfold parseSeoResponse
  rw [if_neg (threeSecText_ne_nil a1 b1 a2 b2 a3 b3 hT hR hK cT cR cK
    (variant_ne_nil hT HT hvT hHTall))]
  dsimp only []
  rw [htitle, hrus, hkw]
  rw [if_neg (fun hcon => hneT hcon.1)]

/-- A full assembled response in the order title, keywords, localized
title: the parser extracts exactly the three contents. -/
theorem parseSeo_TKR (a1 b1 a2 b2 a3 b3 : Nat)
    (hT hR hK cT cR cK HT HR HK : List Char)
    (hHT : HT = hdrZagolovok ∨ HT = hdrTitle)
    (hHR : HR = hdrRusTitle ∨ HR = hdrRusZagolovok)
    (hHK : HK = hdrKlyuch ∨ HK = hdrKeywords)
    (hvT : foldList hT = foldList HT)
    (hvR : foldList hR = foldList HR)
    (hvK : foldList hK = foldList HK)
    (hcT : goodContent cT = true) (hcR : goodContent cR = true)
    (hcK : goodContent cK = true) :
    parseSeoResponse (threeSecText a1 hT b1 cT a2 hK b2 cK a3 hR b3 cR) =
      ⟨cT, cR, cK⟩ := by
  have hHTall : HT ∈ allHeaders := by
    rcases hHT with h | h <;> subst h <;> decide
  have hHRall : HR ∈ allHeaders := by
    rcases hHR with h | h <;> subst h <;> decide
  have hHKall : HK ∈ allHeaders := by
    rcases hHK with h | h <;> subst h <;> decide
  have htitle : getSectionContent titleCur
      (threeSecText a1 hT b1 cT a2 hK b2 cK a3 hR b3 cR) = cT :=
    getSection_first titleCur a1 b1 a2 b2 a3 b3 hT hK hR HT HK HR
      cT cK cR (by decide) hHTall hHKall hHRall
      (by rcases hHT with h | h <;> subst h <;> decide)
      (by rcases hHK with h | h <;> subst h <;> decide)
      hvT hvK hvR hcT hcK hcR
  have hkw : getSectionContent keywordsCur
      (threeSecText a1 hT b1 cT a2 hK b2 cK a3 hR b3 cR) = cK :=
    getSection_second keywordsCur a1 b1 a2 b2 a3 b3 hT hK hR HT HK HR
      cT cK cR (by decide) hHTall hHKall hHRall
      (by rcases hHK with h | h <;> subst h <;> decide)
      (by rcases hHR with h | h <;> subst h <;> decide)
      (by
        intro A hA
        have hA2 : A = hdrKlyuch ∨ A = hdrKeywords := by
          simpa [keywordsCur] using hA
        rcases hA2 with h1 | h1 <;> rcases hHT with h2 | h2 <;>
          subst h1 <;> subst h2 <;> decide)
      hvT hvK hvR hcT hcK hcR
  have hrus : getSectionContent russianCur
      (threeSecText a1 hT b1 cT a2 hK b2 cK a3 hR b3 cR) = cR :=
    getSection_third russianCur a1 b1 a2 b2 a3 b3 hT hK hR HT HK HR
      cT cK cR (by decide) hHTall hHKall hHRall
      (by rcases hHR with h | h <;> subst h <;> decide)
      (by
        intro A hA
        have hA2 : A = hdrRusTitle ∨ A = hdrRusZagolovok := by
          simpa [russianCur] using hA
        rcases hA2 with h1 | h1 <;> rcases hHT with h2 | h2 <;>
          subst h1 <;> subst h2 <;> decide)
      (by
        intro A hA
        have hA2 : A = hdrRusTitle ∨ A = hdrRusZagolovok := by
          simpa [russianCur] using hA
        rcases hA2 with h1 | h1 <;> rcases hHK with h2 | h2 <;>
          subst h1 <;> subst h2 <;> decide)
      hvT hvK hvR hcT hcK hcR
  have hneT : ¬ (cT = []) := (goodContent_props cT hcT).1
  unfold parseSeoResponse
  rw [if_neg (threeSecText_ne_nil a1 b1 a2 b2 a3 b3 hT hK hR cT cK cR
    (variant_ne_nil hT HT hvT hHTall))]
  dsimp only []
  rw [htitle, hrus, hkw]
  rw [if_neg (fun hcon => hneT hcon.1)]

/-- A full assembled response in the order keywords, title, localized
title: the parser extracts exactly the three contents. -/
theorem parseSeo_KTR (a1 b1 a2 b2 a3 b3 : Nat)
    (hT hR hK cT cR cK HT HR HK : List Char)
    (hHT : HT = hdrZagolovok ∨ HT = hdrTitle)
    (hHR : HR = hdrRusTitle ∨ HR = hdrRusZagolovok)
    (hHK : HK = hdrKlyuch ∨ HK = hdrKeywords)
    (hvT : foldList hT = foldList HT)
    (hvR : foldList hR = foldList HR)
    (hvK : foldList hK = foldList HK)
    (hcT : goodContent cT = true) (hcR : goodContent cR = true)
    (hcK : goodContent cK = true) :
    parseSeoResponse (threeSecText a1 hK b1 cK a2 hT b2 cT a3 hR b3 cR) =
      ⟨cT, cR, cK⟩ := by
  have hHTall : HT ∈ allHeaders := by
    rcases hHT with h | h <;> subst h <;> decide
  have hHRall : HR ∈ allHeaders := by
    rcases hHR with h | h <;> subst h <;> decide
  have hHKall : HK ∈ allHeaders := by
    rcases hHK with h | h <;> subst h <;> decide
  have hkw : getSectionContent keywordsCur
      (threeSecText a1 hK b1 cK a2 hT b2 cT a3 hR b3 cR) = cK :=
    getSection_first keywordsCur a1 b1 a2 b2 a3 b3 hK hT hR HK HT HR
      cK cT cR (by decide) hHKall hHTall hHRall
      (by rcases hHK with h | h <;> subst h <;> decide)
      (by rcases hHT with h | h <;> subst h <;> decide)
      hvK hvT hvR hcK hcT hcR
  have htitle : getSectionContent titleCur
      (threeSecText a1 hK b1 cK a2 hT b2 cT a3 hR b3 cR) = cT :=
    getSection_second titleCur a1 b1 a2 b2 a3 b3 hK hT hR HK HT HR
      cK cT cR (by decide) hHKall hHTall hHRall
      (by rcases hHT with h | h <;> subst h <;> decide)
      (by rcases hHR with h | h <;> subst h <;> decide)
      (by
        intro A hA
        have hA2 : A = hdrZagolovok ∨ A = hdrTitle := by
          simpa [titleCur] using hA
        rcases hA2 with h1 | h1 <;> rcases hHK with h2 | h2 <;>
          subst h1 <;> subst h2 <;> decide)
      hvK hvT hvR hcK hcT hcR
  have hrus : getSectionContent russianCur
      (threeSecText a1 hK b1 cK a2 hT b2 cT a3 hR b3 cR) = cR :=
    getSection_third russianCur a1 b1 a2 b2 a3 b3 hK hT hR HK HT HR
      cK cT cR (by decide) hHKall hHTall hHRall
      (by rcases hHR with h | h <;> subst h <;> decide)
      (by
        intro A hA
        have hA2 : A = hdrRusTitle ∨ A = hdrRusZagolovok := by
          simpa [russianCur] using hA
        rcases hA2 with h1 | h1 <;> rcases hHK with h2 | h2 <;>
          subst h1 <;> subst h2 <;> decide)
      (by
        intro A hA
        have hA2 : A = hdrRusTitle ∨ A = hdrRusZagolovok := by
          simpa [russianCur] using hA
        rcases hA2 with h1 | h1 <;> rcases hHT with h2 | h2 <;>
          subst h1 <;> subst h2 <;> decide)
      hvK hvT hvR hcK hcT hcR
  have hneT : ¬ (cT = []) := (goodContent_props cT hcT).1
  unfold parseSeoResponse
  rw [if_neg (threeSecText_ne_nil a1 b1 a2 b2 a3 b3 hK hT hR cK cT cR
    (variant_ne_nil hK HK hvK hHKall))]
  dsimp only []
  rw [htitle, hrus, hkw]
  rw [if_neg (fun hcon => hneT hcon.1)]

/-- An assembled three-section response in which the title section
precedes the localized-title section, with arbitrary letter case in the
headers and arbitrary asterisk emphasis around them. -/
def titleFirstAssembly (cT cR cK text : List Char) : Prop :=
  ∃ (a1 b1 a2 b2 a3 b3 : Nat) (hT hR hK HT HR HK : List Char),
    (HT = hdrZagolovok ∨ HT = hdrTitle) ∧
    (HR = hdrRusTitle ∨ HR = hdrRusZagolovok) ∧
    (HK = hdrKlyuch ∨ HK = hdrKeywords) ∧
    foldList hT = foldList HT ∧
    foldList hR = foldList HR ∧
    foldList hK = foldList HK ∧
    (text = threeSecText a1 hT b1 cT a2 hR b2 cR a3 hK b3 cK ∨
     text = threeSecText a1 hT b1 cT a2 hK b2 cK a3 hR b3 cR ∨
     text = threeSecText a1 hK b1 cK a2 hT b2 cT a3 hR b3 cR)

/-- C1 (amended): for input text containing all three section headers,
each followed by a colon and its own well-behaved content, the parser
returns exactly the three contents independently of the headers' letter
case, of asterisk emphasis, and of the section order, provided the title
section precedes the localized-title section. (The unrestricted order
claim is refuted by `parseSeo_order_dependent`: when the localized-title
section comes first, the title pattern matches the title token embedded
in the localized-title header.) -/
theorem parseSeo_titleFirst_invariant (cT cR cK text : List Char)
    (hcT : goodContent cT = true) (hcR : goodContent cR = true)
    (hcK : goodContent cK = true)
    (h : titleFirstAssembly cT cR cK text) :
    parseSeoResponse text = ⟨cT, cR, cK⟩ := by
  obtain ⟨a1, b1, a2, b2, a3, b3, hT, hR, hK, HT, HR, HK,
    hHT, hHR, hHK, hvT, hvR, hvK, horder⟩ := h
  rcases horder with he | he | he <;> subst he
  · exact parseSeo_TRK a1 b1 a2 b2 a3 b3 hT hR hK cT cR cK HT HR HK
      hHT hHR hHK hvT hvR hvK hcT hcR hcK
  · exact parseSeo_TKR a1 b1 a2 b2 a3 b3 hT hR hK cT cR cK HT HR HK
      hHT hHR hHK hvT hvR hvK hcT hcR hcK
  · exact parseSeo_KTR a1 b1 a2 b2 a3 b3 hT hR hK cT cR cK HT HR HK
      hHT hHR hHK hvT hvR hvK hcT hcR hcK

theorem parseSeo_titleFirst_invariant_witness :
    goodContent "X".data = true ∧ goodContent "Y".data = true ∧
    goodContent "Z".data = true ∧
    titleFirstAssembly "X".data "Y".data "Z".data
      "**KEYWORDS**: Z\nзаголовок: X\nrussian title: Y".data ∧
    parseSeoResponse
      "**KEYWORDS**: Z\nзаголовок: X\nrussian title: Y".data =
      ⟨"X".data, "Y".data, "Z".data⟩ :=
  ⟨by decide, by decide, by decide,
   ⟨2, 2, 0, 0, 0, 0, "заголовок".data, "russian title".data,
    "KEYWORDS".data, hdrZagolovok, hdrRusTitle, hdrKeywords,
    Or.inl rfl, Or.inl rfl, Or.inr rfl, by decide, by decide, by decide,
    Or.inr (Or.inr (by decide))⟩,
   parseSeo_titleFirst_invariant "X".data "Y".data "Z".data _
     (by decide) (by decide) (by decide)
     ⟨2, 2, 0, 0, 0, 0, "заголовок".data, "russian title".data,
      "KEYWORDS".data, hdrZagolovok, hdrRusTitle, hdrKeywords,
      Or.inl rfl, Or.inl rfl, Or.inr rfl, by decide, by decide, by decide,
      Or.inr (Or.inr (by decide))⟩⟩
